import Mathlib

/-!
Shallow embedding of the capacity-interpolation and volume-correction engine
of the sounding_app repository (src/app/ops_cli.py, src/app/vcf54b.py and the
post-processing lines of src/app/ui_fuel_sheet.py).

Modelling conventions:
* Python floats are modelled as exact rationals (`ℚ`); the transcendental
  `math.exp` step is modelled over `ℝ` on top of a computable rational
  argument.
* The sqlite calibration table (`readings` in data/sounding.db) is modelled
  as a list of rows; a `SELECT ... WHERE ... ORDER BY axis ASC` is modelled
  as filter-then-stable-sort.
* Python strings are modelled as `String`/`List Char`; `str.strip`,
  `str.upper`, `str.replace` and `float(...)` are modelled character by
  character below (for `float(...)` on finite decimal literals: exponent
  forms, underscore separators, `inf` and `nan` are outside the model).
-/

/-- Linear interpolation, from `_interp` in ops_cli.py.  The `None` guards of
the source are handled at the call sites, which only call `_interp` with
present endpoints. -/
def interp (x x0 y0 x1 y1 : ℚ) : ℚ :=
  if x1 = x0 then y0
  else (1 - (x - x0) / (x1 - x0)) * y0 + (x - x0) / (x1 - x0) * y1

/-- Last element of `d :: l`, i.e. Python's `rows[-1]`. -/
def lastD {α : Type} : List α → α → α
  | [], d => d
  | a :: rest, _ => lastD rest a

/-- The lo/hi scanning loop shared by `_nearest_pair_along` (over `(x, y)`
rows, `key = Prod.fst`) and `_nearest_trims` (over trims, `key = id`) in
ops_cli.py:

    for p in l:
        if key p <= x: lo = p
        if key p >= x: hi = p; break
-/
def scanPair {α : Type} (key : α → ℚ) (x : ℚ) : List α → Option α → Option α × Option α
  | [], lo => (lo, none)
  | p :: rest, lo =>
    if x ≤ key p then ((if key p ≤ x then some p else lo), some p)
    else scanPair key x rest (if key p ≤ x then some p else lo)

/-- Bracket search with boundary clamping over an ordered `(x, y)` table:
the tail of `_nearest_pair_along` in ops_cli.py (after the rows have been
fetched).  Returns `(x0, y0, x1, y1)`, or `none` for the all-`None` return. -/
def nearestPair (rows : List (ℚ × ℚ)) (x : ℚ) : Option (ℚ × ℚ × ℚ × ℚ) :=
  match rows with
  | [] => none
  | r0 :: rest =>
    some (((scanPair Prod.fst (max (min x (lastD rest r0).1) r0.1) (r0 :: rest) none).1.getD r0).1,
          ((scanPair Prod.fst (max (min x (lastD rest r0).1) r0.1) (r0 :: rest) none).1.getD r0).2,
          ((scanPair Prod.fst (max (min x (lastD rest r0).1) r0.1) (r0 :: rest) none).2.getD (lastD rest r0)).1,
          ((scanPair Prod.fst (max (min x (lastD rest r0).1) r0.1) (r0 :: rest) none).2.getD (lastD rest r0)).2)

/-- The level axis of a calibration row: sounding or ullage (in cm). -/
inductive Axis : Type
  | sounding
  | ullage
deriving DecidableEq

/-- One row of the `readings` calibration table (see the data model of the
spec): exactly one of `volume_m3` / `correction_m3` is meant to be populated
depending on whether `heel` is null. -/
structure CalRow : Type where
  name : String
  trim : Option ℚ
  heel : Option String
  sounding_cm : Option ℚ
  ullage_cm : Option ℚ
  volume_m3 : Option ℚ
  correction_m3 : Option ℚ
deriving DecidableEq

/-- The axis column selected by `axis_field` in ops_cli.py. -/
def axisVal (axis : Axis) (r : CalRow) : Option ℚ :=
  match axis with
  | Axis.sounding => r.sounding_cm
  | Axis.ullage => r.ullage_cm

/-- The value column: `correction_m3` if `heel_code` is truthy else
`volume_m3` (Python truthiness: `None` and `""` are falsy). -/
def fieldVal (heelCode : Option String) (r : CalRow) : Option ℚ :=
  if heelCode = none ∨ heelCode = some "" then r.volume_m3 else r.correction_m3

/-- Sort key used to model `ORDER BY axis ASC`. -/
def rowLE (a b : ℚ × ℚ) : Prop := a.1 ≤ b.1

instance : DecidableRel rowLE := fun a b => inferInstanceAs (Decidable (a.1 ≤ b.1))

instance : IsTotal (ℚ × ℚ) rowLE := ⟨fun a b => le_total a.1 b.1⟩

instance : IsTrans (ℚ × ℚ) rowLE := ⟨fun _ _ _ => le_trans⟩

/-- The `run_query` helper of `_nearest_pair_along` in ops_cli.py:

    SELECT axis, field FROM readings
    WHERE name=? AND <trim filter> AND <heel filter>
          AND axis IS NOT NULL AND field IS NOT NULL
    ORDER BY axis ASC

`run_query(require_trim=True)` is `queryRows db name trim heelCode axis` and
`run_query(require_trim=False)` (which forces `trim IS NULL`) is
`queryRows db name none heelCode axis`; both the `trim IS NULL` and the
`CAST(trim AS REAL) = ?` filters are the single test `r.trim = trim`. -/
def queryRows (db : List CalRow) (name : String) (trim : Option ℚ)
    (heelCode : Option String) (axis : Axis) : List (ℚ × ℚ) :=
  List.insertionSort rowLE
    (db.filterMap fun r =>
      if r.name = name ∧ r.trim = trim ∧ r.heel = heelCode then
        match axisVal axis r, fieldVal heelCode r with
        | some x, some y => some (x, y)
        | _, _ => none
      else none)

/-- Model of `_nearest_pair_along` in ops_cli.py: fetch the rows at the requested
trim, fall back to `trim IS NULL` rows when a heel code is given and the
first query is empty, then bracket-search. -/
def nearestPairAlong (db : List CalRow) (name : String) (trim : Option ℚ)
    (heelCode : Option String) (axis : Axis) (x : ℚ) : Option (ℚ × ℚ × ℚ × ℚ) :=
  nearestPair
    (if queryRows db name trim heelCode axis = [] ∧ heelCode ≠ none then
      queryRows db name none heelCode axis
    else queryRows db name trim heelCode axis) x

/-- Model of `_get_available_trims` in ops_cli.py:
`SELECT DISTINCT CAST(trim AS REAL) ... WHERE trim IS NOT NULL ORDER BY ...`,
modelled as dedup-then-sort. -/
def availableTrims (db : List CalRow) (name : String) : List ℚ :=
  List.insertionSort (fun a b => a ≤ b)
    ((db.filterMap fun r => if r.name = name then r.trim else none).dedup)

/-- Model of `_nearest_trims` in ops_cli.py. -/
def nearestTrims (trims : List ℚ) (t : ℚ) : Option (ℚ × ℚ) :=
  match trims with
  | [] => none
  | t0 :: rest =>
    if t ∈ trims then some (t, t)
    else
      some ((scanPair id t (t0 :: rest) none).1.getD t0,
            (scanPair id t (t0 :: rest) none).2.getD (lastD rest t0))

/-- Model of `_base_volume_at_trim` in ops_cli.py. -/
def baseVolumeAtTrim (db : List CalRow) (name : String) (trim : Option ℚ)
    (axis : Axis) (x : ℚ) : Option ℚ :=
  match nearestPairAlong db name trim none axis x with
  | none => none
  | some (x0, y0, x1, y1) => some (interp x x0 y0 x1 y1)

/-- Model of `_base_volume_cross_trim` in ops_cli.py (the `sounding`/`ullage`
selection of the source is the `axis`/`x` pair here, as in
`_base_volume`). -/
def baseVolumeCrossTrim (db : List CalRow) (name : String) (trim : ℚ)
    (axis : Axis) (x : ℚ) : Option ℚ :=
  match nearestTrims (availableTrims db name) trim with
  | none => none
  | some (t0, t1) =>
    if t0 = t1 then baseVolumeAtTrim db name (some t0) axis x
    else
      match baseVolumeAtTrim db name (some t0) axis x,
            baseVolumeAtTrim db name (some t1) axis x with
      | none, v1 => v1
      | v0, none => v0
      | some v0, some v1 => some (interp trim t0 v0 t1 v1)

/-- Model of `_base_volume` in ops_cli.py: exact-trim resolution first, cross-trim
fallback second.  The source duplicates this for the sounding and the ullage
axis; the two copies are the two values of `axis`. -/
def baseVolume (db : List CalRow) (name : String) (trim : ℚ)
    (axis : Axis) (x : ℚ) : Option ℚ :=
  match baseVolumeAtTrim db name (some trim) axis x with
  | some v => some v
  | none => baseVolumeCrossTrim db name trim axis x

/-- Model of `_heel_corr_at` in ops_cli.py: a missing pair degrades to `0.0`. -/
def heelCorrAt (db : List CalRow) (name : String) (trim : ℚ) (code : String)
    (axis : Axis) (x : ℚ) : ℚ :=
  match nearestPairAlong db name (some trim) (some code) axis x with
  | none => 0
  | some (x0, y0, x1, y1) => interp x x0 y0 x1 y1

/-! ### The heel-specification parser (`_parse_heel` in ops_cli.py) -/

/-- The ten ASCII digit characters. -/
def digitChars : List Char :=
  ['0', '1', '2', '3', '4', '5', '6', '7', '8', '9']

/-- Leading run of decimal digits (`\d+` or `\d*`), and the rest. -/
def takeDigits : List Char → List Char × List Char
  | [] => ([], [])
  | ch :: rest =>
    if ch.isDigit then ((takeDigits rest).1.cons ch, (takeDigits rest).2)
    else ([], ch :: rest)

/-- Numeric value of a digit string. -/
def digitsVal (l : List Char) : ℕ :=
  l.foldl (fun acc ch => 10 * acc + (ch.toNat - 48)) 0

/-- Drop leading whitespace (`\s*`, and the left half of `str.strip`). -/
def skipWs (l : List Char) : List Char :=
  l.dropWhile Char.isWhitespace

/-- Every character is whitespace. -/
def allWs (l : List Char) : Bool :=
  l.all Char.isWhitespace

/-- Python `str.strip()` (ASCII whitespace). -/
def pyStrip (l : List Char) : List Char :=
  ((l.dropWhile Char.isWhitespace).reverse.dropWhile Char.isWhitespace).reverse

/-- Python `str.upper()` (ASCII case mapping, character by character). -/
def pyUpper (l : List Char) : List Char :=
  l.map Char.toUpper

/-- The key `heel.strip().upper()` — the lookup key the pipeline passes to
`_heel_corr_at` for discrete heel codes in `_compute_volumes`. -/
def stripUpper (s : String) : String :=
  String.mk (pyUpper (pyStrip s.data))

/-- Python `str.replace(pat, "")` for a three-character pattern (used for
`"DEG"`): scan left to right and drop non-overlapping occurrences. -/
def dropPat3 (a b c : Char) : List Char → List Char
  | x :: y :: z :: rest =>
    if x = a ∧ y = b ∧ z = c then dropPat3 a b c rest
    else x :: dropPat3 a b c (y :: z :: rest)
  | l => l

/-- Python `str.replace(pat, "")` for a one-character pattern (used for
`"°"`). -/
def dropPat1 (a : Char) : List Char → List Char
  | [] => []
  | x :: rest => if x = a then dropPat1 a rest else x :: dropPat1 a rest

/-- The normalization `heel_raw.strip().upper().replace("DEG", "").replace("°", "")` — the
normalized string `s` classified by `_parse_heel`. -/
def normHeel (s : String) : List Char :=
  dropPat1 '°' (dropPat3 'D' 'E' 'G' (pyUpper (pyStrip s.data)))

/-- The four discrete heel codes recognized by `_parse_heel`
(`{"P1","P2","S-1","S-2"}`), as character lists. -/
def codesL : List (List Char) :=
  [['P', '1'], ['P', '2'], ['S', '-', '1'], ['S', '-', '2']]

/-- Core of the `float(s)` model, after sign handling: digits with an
optional fractional part (`\d+(\.\d*)?` or `\.\d+`), then only trailing
whitespace. -/
def pyFloatCore (l : List Char) : Option ℚ :=
  if (takeDigits l).1 = [] then
    match (takeDigits l).2 with
    | '.' :: r2 =>
      if (takeDigits r2).1 = [] then none
      else if allWs (takeDigits r2).2 then
        some ((digitsVal (takeDigits r2).1 : ℚ) / 10 ^ (takeDigits r2).1.length)
      else none
    | _ => none
  else
    match (takeDigits l).2 with
    | '.' :: r2 =>
      if allWs (takeDigits r2).2 then
        some ((digitsVal (takeDigits l).1 : ℚ) +
          (digitsVal (takeDigits r2).1 : ℚ) / 10 ^ (takeDigits r2).1.length)
      else none
    | rest => if allWs rest then some (digitsVal (takeDigits l).1 : ℚ) else none

/-- Model of Python `float(s)` (returning `none` where `float` raises),
restricted to finite decimal literals: optional surrounding whitespace,
optional sign, digits with an optional decimal point.  Exponent forms,
underscore digit separators, `inf` and `nan` are outside the model. -/
def pyFloat? (l : List Char) : Option ℚ :=
  match skipWs l with
  | '+' :: r => pyFloatCore r
  | '-' :: r => (pyFloatCore r).map Neg.neg
  | r => pyFloatCore r

/-- The number token of the heel regexes, `\d+(?:\.\d+)?`: digits, and an
optional dot-digits group (the group is declined when no digit follows the
dot, exactly as the regex backtracks).  Returns the value and the rest. -/
def parseNumber (l : List Char) : Option (ℚ × List Char) :=
  if (takeDigits l).1 = [] then none
  else
    match (takeDigits l).2 with
    | '.' :: r2 =>
      if (takeDigits r2).1 = [] then some ((digitsVal (takeDigits l).1 : ℚ), (takeDigits l).2)
      else
        some ((digitsVal (takeDigits l).1 : ℚ) +
          (digitsVal (takeDigits r2).1 : ℚ) / 10 ^ (takeDigits r2).1.length,
          (takeDigits r2).2)
    | rest => some ((digitsVal (takeDigits l).1 : ℚ), rest)

/-- Model of `re.match(r"^\s*(\d+(?:\.\d+)?)\s*([PS])\s*$", s)`. -/
def matchNumSide (l : List Char) : Option (ℚ × Char) :=
  match parseNumber (skipWs l) with
  | none => none
  | some (q, rest) =>
    match skipWs rest with
    | c :: rest2 =>
      if (c = 'P' ∨ c = 'S') ∧ skipWs rest2 = [] then some (q, c) else none
    | [] => none

/-- Model of `re.match(r"^\s*([PS])\s*(\d+(?:\.\d+)?)\s*$", s)`. -/
def matchSideNum (l : List Char) : Option (Char × ℚ) :=
  match skipWs l with
  | c :: rest =>
    if c = 'P' ∨ c = 'S' then
      match parseNumber (skipWs rest) with
      | some (q, rest2) => if skipWs rest2 = [] then some (c, q) else none
      | none => none
    else none
  | [] => none

/-- Model of `_parse_heel` in ops_cli.py.  The result is the source's
`(side, degrees)` pair: `(none, none)` for "no heel", `(some "DISCRETE",
none)` for a discrete-code classification, and `(some "P"/"S", some d)` for
a continuous heel. -/
def parseHeel (raw : Option String) : Option String × Option ℚ :=
  match raw with
  | none => (none, none)
  | some str =>
    if str.data = [] then (none, none)
    else
      if normHeel str ∈ codesL then (some "DISCRETE", none)
      else
        match pyFloat? (normHeel str) with
        | some q =>
          if q = 0 then (none, none)
          else (some (if 0 < q then "P" else "S"), some |q|)
        | none =>
          match matchNumSide (normHeel str) with
          | some (q, c) =>
            if q = 0 then (none, none) else (some (String.mk [c]), some q)
          | none =>
            match matchSideNum (normHeel str) with
            | some (c, q) =>
              if q = 0 then (none, none) else (some (String.mk [c]), some q)
            | none => (some "DISCRETE", none)

/-- Model of `_continuous_heel_corr` in ops_cli.py: clamp to 2°, resolve the 1° (and
for degrees above 1 the 2°) anchor code of the side, interpolate. -/
def continuousHeelCorr (db : List CalRow) (name : String) (trim : ℚ)
    (side : String) (deg : ℚ) (axis : Axis) (x : ℚ) : ℚ :=
  if deg ≤ 0 then 0
  else
    if min deg 2 ≤ 1 then
      min deg 2 * heelCorrAt db name trim (if side = "P" then "P1" else "S-1") axis x
    else
      heelCorrAt db name trim (if side = "P" then "P1" else "S-1") axis x +
        (min deg 2 - 1) *
          (heelCorrAt db name trim (if side = "P" then "P2" else "S-2") axis x -
            heelCorrAt db name trim (if side = "P" then "P1" else "S-1") axis x)

/-- The heel-correction part of `_compute_volumes` in ops_cli.py: no heel →
`0.0`; a discrete classification → `_heel_corr_at` with the raw input only
stripped and uppercased (`heel.strip().upper()`); a continuous
classification → `_continuous_heel_corr`. -/
def heelCorrOf (db : List CalRow) (name : String) (trim : ℚ) (axis : Axis)
    (x : ℚ) (heel : Option String) : ℚ :=
  match parseHeel heel with
  | (none, _) => 0
  | (some s, deg) =>
    if s = "DISCRETE" then heelCorrAt db name trim (stripUpper (heel.getD "")) axis x
    else continuousHeelCorr db name trim s ((deg.getD 0)) axis x

/-- Model of `_compute_volumes` in ops_cli.py: base volume (fatal when missing), heel
correction, observed volume `base + corr`. -/
def computeVolumes (db : List CalRow) (name : String) (trim : ℚ) (axis : Axis)
    (x : ℚ) (heel : Option String) : Except String (ℚ × ℚ × ℚ) :=
  match baseVolume db name trim axis x with
  | none => Except.error "No base volume found (check tank, trim, and sounding/ullage range)."
  | some base =>
    Except.ok (base, heelCorrOf db name trim axis x heel,
      base + heelCorrOf db name trim axis x heel)

/-! ### The volume-correction factor (src/app/vcf54b.py) -/

/-- The piecewise thermal-expansion coefficient of `vcf_54b` in vcf54b.py
(the `# pick alpha` block, with its `if/elif/elif/else` in source order). -/
def alpha54b (rho : ℚ) : ℚ :=
  if rho ≤ 770 then (346.42278 + 0.43884 * rho) / rho ^ 2
  else if 770 < rho ∧ rho < 778 then -0.0033612 + 2680.32 / rho ^ 2
  else if 778 ≤ rho ∧ rho < 839 then (594.5418 + 0 * rho) / rho ^ 2
  else (186.9696 + 0.48618 * rho) / rho ^ 2

/-- The (rational) argument of the exponential in `vcf_54b`:
`-alpha * dT * (1 + 0.8 * alpha * dT)` with `dT = degc - 15`. -/
def vcfArg (den15 degc : ℚ) : ℚ :=
  -(alpha54b den15) * (degc - 15) * (1 + 0.8 * alpha54b den15 * (degc - 15))

/-- Model of `vcf_54b` in vcf54b.py: `exp(-alpha*dT*(1 + 0.8*alpha*dT))`. -/
noncomputable def vcf_54b (den15 degc : ℚ) : ℝ :=
  Real.exp ((vcfArg den15 degc : ℚ) : ℝ)

/-! ### The UI post-processing (calc_one in src/app/ui_fuel_sheet.py) -/

/-- The three outputs `calc_one` writes to a row: VCF, volume at 15°C, mass
in tonnes. -/
structure RowOut : Type where
  vcf : ℝ
  v15 : ℝ
  massT : ℝ

/-- The computation of `calc_one` in ui_fuel_sheet.py: the zero-ullage
special case, `_compute_volumes` (errors propagate), then
`v_obs = max(0.0, v_obs)`, `v15 = max(0.0, v_obs * vcf)`,
`mass_t = max(0.0, (v15 * dens15) / 1000.0)`. -/
noncomputable def calcOne (db : List CalRow) (name : String) (trim : ℚ)
    (axis : Axis) (x : ℚ) (heel : Option String) (dens15 temp : ℚ) :
    Except String RowOut :=
  if axis = Axis.ullage ∧ x = 0 then Except.ok ⟨1, 0, 0⟩
  else
    match computeVolumes db name trim axis x heel with
    | Except.error e => Except.error e
    | Except.ok (_, _, vObs) =>
      Except.ok ⟨vcf_54b dens15 temp,
        max 0 (max 0 (vObs : ℝ) * vcf_54b dens15 temp),
        max 0 (max 0 (max 0 (vObs : ℝ) * vcf_54b dens15 temp) * (dens15 : ℝ) / 1000)⟩

/-! ### Concrete calibration fixtures used by the witnesses -/

/-- The cross-trim scenario of the spec: base tables only at trim -2
(`(0,0),(100,90)`) and trim 2 (`(0,0),(100,110)`). -/
def crossDb : List CalRow :=
  [⟨"T1", some (-2), none, some 0, none, some 0, none⟩,
   ⟨"T1", some (-2), none, some 100, none, some 90, none⟩,
   ⟨"T1", some 2, none, some 0, none, some 0, none⟩,
   ⟨"T1", some 2, none, some 100, none, some 110, none⟩]

/-- A tank with a base table at trim 0 and heel-correction anchors P1/P2. -/
def heelDb : List CalRow :=
  [⟨"T1", some 0, none, some 0, none, some 0, none⟩,
   ⟨"T1", some 0, none, some 100, none, some 10, none⟩,
   ⟨"T1", some 0, some "P1", some 50, none, none, some 2⟩,
   ⟨"T1", some 0, some "P2", some 50, none, none, some 6⟩]

/-- A tank whose calibration anomalously stores a negative base volume. -/
def negDb : List CalRow :=
  [⟨"T1", some 0, none, some 0, none, some (-5), none⟩,
   ⟨"T1", some 0, none, some 100, none, some (-5), none⟩]

/-! ### Helper lemmas about the scanning loop -/

theorem lastD_mem {α : Type} : ∀ (l : List α) (d : α), lastD l d = d ∨ lastD l d ∈ l
  | [], _ => Or.inl rfl
  | a :: rest, d => by
    have he : lastD (a :: rest) d = lastD rest a := rfl
    rw [he]
    rcases lastD_mem rest a with h | h
    · exact Or.inr (by rw [h]; exact List.mem_cons_self a rest)
    · exact Or.inr (List.mem_cons_of_mem a h)

theorem key_le_lastD {α : Type} (key : α → ℚ) :
    ∀ (rest : List α) (q : α), (q :: rest).Pairwise (fun a b => key a ≤ key b) →
      ∀ p ∈ q :: rest, key p ≤ key (lastD rest q)
  | [], q, _, p, hp => by
    simp only [List.mem_singleton] at hp
    simp [hp, lastD]
  | r :: rs, q, hs, p, hp => by
    have hqr : key q ≤ key r := (List.pairwise_cons.mp hs).1 r (List.mem_cons_self r rs)
    have hs' : (r :: rs).Pairwise (fun a b => key a ≤ key b) := (List.pairwise_cons.mp hs).2
    rcases List.mem_cons.mp hp with h | h
    · subst h
      calc key p ≤ key r := hqr
        _ ≤ key (lastD rs r) := key_le_lastD key rs r hs' r (List.mem_cons_self r rs)
    · exact key_le_lastD key rs r hs' p h

theorem scanPair_hi_some {α : Type} (key : α → ℚ) (x : ℚ) :
    ∀ (l : List α) (acc : Option α) (p : α),
      (scanPair key x l acc).2 = some p → p ∈ l ∧ x ≤ key p
  | [], acc, p, h => by simp [scanPair] at h
  | q :: rest, acc, p, h => by
    by_cases hx : x ≤ key q
    · simp only [scanPair, if_pos hx] at h
      obtain rfl : q = p := by simpa using h
      exact ⟨List.mem_cons_self q rest, hx⟩
    · simp only [scanPair, if_neg hx] at h
      obtain ⟨hm, hle⟩ := scanPair_hi_some key x rest _ p h
      exact ⟨List.mem_cons_of_mem q hm, hle⟩

theorem scanPair_hi_none {α : Type} (key : α → ℚ) (x : ℚ) :
    ∀ (l : List α) (acc : Option α),
      (scanPair key x l acc).2 = none → ∀ p ∈ l, key p < x
  | [], acc, _, p, hp => by simp at hp
  | q :: rest, acc, h, p, hp => by
    by_cases hx : x ≤ key q
    · simp [scanPair, if_pos hx] at h
    · simp only [scanPair, if_neg hx] at h
      rcases List.mem_cons.mp hp with hq | hm
      · exact hq ▸ lt_of_not_le hx
      · exact scanPair_hi_none key x rest _ h p hm

theorem scanPair_lo_mem {α : Type} (key : α → ℚ) (x : ℚ) :
    ∀ (l : List α) (acc : Option α) (p : α),
      (scanPair key x l acc).1 = some p → p ∈ l ∨ acc = some p
  | [], acc, p, h => by
    simp only [scanPair] at h
    exact Or.inr h
  | q :: rest, acc, p, h => by
    by_cases hx : x ≤ key q
    · simp only [scanPair, if_pos hx] at h
      by_cases hq : key q ≤ x
      · rw [if_pos hq] at h
        exact Or.inl (List.mem_cons.mpr (Or.inl (by simpa using h.symm)))
      · rw [if_neg hq] at h
        exact Or.inr h
    · simp only [scanPair, if_neg hx] at h
      rcases scanPair_lo_mem key x rest _ p h with hm | hacc
      · exact Or.inl (List.mem_cons_of_mem q hm)
      · by_cases hq : key q ≤ x
        · rw [if_pos hq] at hacc
          exact Or.inl (List.mem_cons.mpr (Or.inl (by simpa using hacc.symm)))
        · rw [if_neg hq] at hacc
          exact Or.inr hacc

theorem scanPair_lo_le {α : Type} (key : α → ℚ) (x : ℚ) :
    ∀ (l : List α) (acc : Option α),
      (∀ a, acc = some a → key a ≤ x) →
      ∀ p, (scanPair key x l acc).1 = some p → key p ≤ x
  | [], acc, hacc, p, h => by
    simp only [scanPair] at h
    exact hacc p h
  | q :: rest, acc, hacc, p, h => by
    have hacc' : ∀ a, (if key q ≤ x then some q else acc) = some a → key a ≤ x := by
      intro a ha
      by_cases hq : key q ≤ x
      · rw [if_pos hq] at ha
        obtain rfl : q = a := by simpa using ha
        exact hq
      · rw [if_neg hq] at ha
        exact hacc a ha
    by_cases hx : x ≤ key q
    · simp only [scanPair, if_pos hx] at h
      exact hacc' p h
    · simp only [scanPair, if_neg hx] at h
      exact scanPair_lo_le key x rest _ hacc' p h

theorem scanPair_lo_none {α : Type} (key : α → ℚ) (x : ℚ) :
    ∀ (l : List α) (acc : Option α),
      (scanPair key x l acc).1 = none → acc = none
  | [], acc, h => by simpa [scanPair] using h
  | q :: rest, acc, h => by
    by_cases hx : x ≤ key q
    · simp only [scanPair, if_pos hx] at h
      by_cases hq : key q ≤ x
      · rw [if_pos hq] at h
        exact absurd h (by simp)
      · rwa [if_neg hq] at h
    · simp only [scanPair, if_neg hx] at h
      have := scanPair_lo_none key x rest _ h
      by_cases hq : key q ≤ x
      · rw [if_pos hq] at this
        exact absurd this (by simp)
      · rwa [if_neg hq] at this

theorem scanPair_lo_none_sorted {α : Type} (key : α → ℚ) (x : ℚ) :
    ∀ (l : List α) (acc : Option α), l.Pairwise (fun a b => key a ≤ key b) →
      (scanPair key x l acc).1 = none → ∀ p ∈ l, x < key p
  | [], acc, _, _, p, hp => by simp at hp
  | q :: rest, acc, hs, h, p, hp => by
    by_cases hx : x ≤ key q
    · simp only [scanPair, if_pos hx] at h
      by_cases hq : key q ≤ x
      · rw [if_pos hq] at h
        exact absurd h (by simp)
      · rw [if_neg hq] at h
        have hxq : x < key q := lt_of_not_le hq
        rcases List.mem_cons.mp hp with rfl | hm
        · exact hxq
        · exact lt_of_lt_of_le hxq ((List.pairwise_cons.mp hs).1 p hm)
    · simp only [scanPair, if_neg hx] at h
      have hacc := scanPair_lo_none key x rest _ h
      by_cases hq : key q ≤ x
      · rw [if_pos hq] at hacc
        exact absurd hacc (by simp)
      · exact absurd hq (by simpa using le_of_not_le hx)

theorem scanPair_lo_acc {α : Type} (key : α → ℚ) (x : ℚ) :
    ∀ (l : List α) (acc : Option α) (a : α), l.Pairwise (fun a b => key a ≤ key b) →
      acc = some a → (∀ p ∈ l, key a ≤ key p) →
      ∃ v, (scanPair key x l acc).1 = some v ∧ key a ≤ key v
  | [], acc, a, _, hacc, _ => ⟨a, by simp [scanPair, hacc], le_refl _⟩
  | q :: rest, acc, a, hs, hacc, hle => by
    have hsq : ∀ p ∈ rest, key q ≤ key p := (List.pairwise_cons.mp hs).1
    have hs' : rest.Pairwise (fun a b => key a ≤ key b) := (List.pairwise_cons.mp hs).2
    by_cases hx : x ≤ key q
    · simp only [scanPair, if_pos hx]
      by_cases hq : key q ≤ x
      · exact ⟨q, by simp [if_pos hq], hle q (List.mem_cons_self q rest)⟩
      · exact ⟨a, by simp [if_neg hq, hacc], le_refl _⟩
    · simp only [scanPair, if_neg hx]
      by_cases hq : key q ≤ x
      · rw [if_pos hq]
        obtain ⟨v, hv, hav⟩ := scanPair_lo_acc key x rest (some q) q hs' rfl hsq
        exact ⟨v, hv, le_trans (hle q (List.mem_cons_self q rest)) hav⟩
      · rw [if_neg hq]
        exact scanPair_lo_acc key x rest acc a hs' hacc
          (fun p hp => hle p (List.mem_cons_of_mem q hp))

theorem scanPair_lo_max {α : Type} (key : α → ℚ) (x : ℚ) :
    ∀ (l : List α) (acc : Option α), l.Pairwise (fun a b => key a ≤ key b) →
      (∀ p ∈ l, key p ≠ x) →
      ∀ p ∈ l, key p ≤ x →
      ∃ v, (scanPair key x l acc).1 = some v ∧ key p ≤ key v
  | [], acc, _, _, p, hp, _ => by simp at hp
  | q :: rest, acc, hs, hne, p, hp, hpx => by
    have hsq : ∀ r ∈ rest, key q ≤ key r := (List.pairwise_cons.mp hs).1
    have hs' : rest.Pairwise (fun a b => key a ≤ key b) := (List.pairwise_cons.mp hs).2
    rcases List.mem_cons.mp hp with rfl | hm
    · -- p is the head; its key is < x, so the loop does not break here and
      -- the accumulator becomes `some p`
      have hlt : key p < x := lt_of_le_of_ne hpx (hne p (List.mem_cons_self p rest))
      have hx : ¬x ≤ key p := not_le_of_lt hlt
      simp only [scanPair, if_neg hx, if_pos hpx]
      exact scanPair_lo_acc key x rest (some p) p hs' rfl hsq
    · have hqx : key q ≤ x := le_trans (hsq p hm) hpx
      have hqlt : key q < x := lt_of_le_of_ne hqx (hne q (List.mem_cons_self q rest))
      have hx : ¬x ≤ key q := not_le_of_lt hqlt
      simp only [scanPair, if_neg hx, if_pos hqx]
      exact scanPair_lo_max key x rest (some q) hs'
        (fun r hr => hne r (List.mem_cons_of_mem q hr)) p hm hpx

theorem scanPair_hi_min {α : Type} (key : α → ℚ) (x : ℚ) :
    ∀ (l : List α) (acc : Option α) (v : α), l.Pairwise (fun a b => key a ≤ key b) →
      (scanPair key x l acc).2 = some v →
      ∀ p ∈ l, x ≤ key p → key v ≤ key p
  | [], _, _, _, _, p, hp, _ => by simp at hp
  | q :: rest, acc, v, hs, h, p, hp, hpx => by
    have hsq : ∀ r ∈ rest, key q ≤ key r := (List.pairwise_cons.mp hs).1
    have hs' : rest.Pairwise (fun a b => key a ≤ key b) := (List.pairwise_cons.mp hs).2
    by_cases hx : x ≤ key q
    · simp only [scanPair, if_pos hx] at h
      obtain rfl : q = v := by simpa using h
      rcases List.mem_cons.mp hp with rfl | hm
      · exact le_refl _
      · exact hsq p hm
    · simp only [scanPair, if_neg hx] at h
      rcases List.mem_cons.mp hp with rfl | hm
      · exact absurd hpx hx
      · exact scanPair_hi_min key x rest _ v hs' h p hm hpx

theorem scanPair_all_lt {α : Type} (key : α → ℚ) (x : ℚ) :
    ∀ (rest : List α) (q : α) (acc : Option α), (∀ p ∈ q :: rest, key p < x) →
      scanPair key x (q :: rest) acc = (some (lastD rest q), none)
  | [], q, acc, hall => by
    have h1 : ¬x ≤ key q := not_le_of_lt (hall q (List.mem_cons_self q []))
    have h2 : key q ≤ x := le_of_lt (hall q (List.mem_cons_self q []))
    simp [scanPair, if_neg h1, if_pos h2, lastD]
  | r :: rs, q, acc, hall => by
    have h1 : ¬x ≤ key q := not_le_of_lt (hall q (List.mem_cons_self q (r :: rs)))
    have h2 : key q ≤ x := le_of_lt (hall q (List.mem_cons_self q (r :: rs)))
    have he : lastD (r :: rs) q = lastD rs r := rfl
    simp only [scanPair, if_neg h1, if_pos h2, he]
    exact scanPair_all_lt key x rs r (some q)
      (fun p hp => hall p (List.mem_cons_of_mem q hp))

theorem scanPair_head_gt {α : Type} (key : α → ℚ) (x : ℚ) (q : α) (rest : List α)
    (acc : Option α) (h : x < key q) :
    scanPair key x (q :: rest) acc = (acc, some q) := by
  have h1 : x ≤ key q := le_of_lt h
  have h2 : ¬key q ≤ x := not_le_of_lt h
  simp [scanPair, if_pos h1, if_neg h2]

theorem scanPair_node {α : Type} (key : α → ℚ) (x : ℚ) :
    ∀ (l : List α) (acc : Option α) (p : α), l.Pairwise (fun a b => key a < key b) →
      p ∈ l → key p = x → scanPair key x l acc = (some p, some p)
  | [], acc, p, _, hp, _ => by simp at hp
  | q :: rest, acc, p, hs, hp, hpx => by
    have hsq : ∀ r ∈ rest, key q < key r := (List.pairwise_cons.mp hs).1
    have hs' : rest.Pairwise (fun a b => key a < key b) := (List.pairwise_cons.mp hs).2
    rcases List.mem_cons.mp hp with rfl | hm
    · have h1 : x ≤ key p := le_of_eq hpx.symm
      have h2 : key p ≤ x := le_of_eq hpx
      simp [scanPair, if_pos h1, if_pos h2]
    · have hql : key q < x := hpx ▸ hsq p hm
      have h1 : ¬x ≤ key q := not_le_of_lt hql
      have h2 : key q ≤ x := le_of_lt hql
      simp only [scanPair, if_neg h1, if_pos h2]
      exact scanPair_node key x rest (some q) p hs' hm hpx

/-! ### Sortedness of the modelled queries -/

theorem queryRows_sorted (db : List CalRow) (name : String) (trim : Option ℚ)
    (heelCode : Option String) (axis : Axis) :
    (queryRows db name trim heelCode axis).Pairwise rowLE :=
  List.sorted_insertionSort rowLE _

theorem availableTrims_sorted (db : List CalRow) (name : String) :
    (availableTrims db name).Pairwise (fun a b => a ≤ b) :=
  List.sorted_insertionSort _ _

/-- Full characterization of `_nearest_trims` on a sorted nonempty trim
list: it returns the nearest tabulated trims `t0 ≤ t ≤ t1` around the
request, collapsing to the single nearest trim beyond either edge. -/
theorem nearestTrims_spec (trims : List ℚ) (t : ℚ)
    (hs : trims.Pairwise (fun a b => a ≤ b)) (hne : trims ≠ []) :
    ∃ t0 t1, nearestTrims trims t = some (t0, t1) ∧
      t0 ∈ trims ∧ t1 ∈ trims ∧
      (t0 ≤ t ∨ ∀ tv ∈ trims, t ≤ tv) ∧
      (t ≤ t1 ∨ ∀ tv ∈ trims, tv ≤ t) ∧
      (∀ tv ∈ trims, tv ≤ t → tv ≤ t0) ∧
      (∀ tv ∈ trims, t ≤ tv → t1 ≤ tv) ∧
      ((∀ tv ∈ trims, t < tv) → t0 = t1) ∧
      ((∀ tv ∈ trims, tv < t) → t0 = t1) := by
  obtain ⟨q, rest, rfl⟩ : ∃ q rest, trims = q :: rest := by
    cases trims with
    | nil => exact absurd rfl hne
    | cons q rest => exact ⟨q, rest, rfl⟩
  by_cases ht : t ∈ q :: rest
  · refine ⟨t, t, by simp only [nearestTrims]; rw [if_pos ht], ht, ht, Or.inl (le_refl t),
      Or.inl (le_refl t), fun tv _ h => h, fun tv _ h => h, ?_, ?_⟩
    · intro hall
      rfl
    · intro hall
      rfl
  · have hres : nearestTrims (q :: rest) t =
        some ((scanPair id t (q :: rest) none).1.getD q,
              (scanPair id t (q :: rest) none).2.getD (lastD rest q)) := by
      simp only [nearestTrims]
      rw [if_neg ht]
    have hneq : ∀ p ∈ q :: rest, id p ≠ t := by
      intro p hp he
      exact ht (he ▸ hp)
    refine ⟨_, _, hres, ?_, ?_, ?_, ?_, ?_, ?_, ?_, ?_⟩
    · -- t0 ∈ trims
      rcases h1 : (scanPair id t (q :: rest) none).1 with _ | v
      · simp [h1]
      · rcases scanPair_lo_mem id t (q :: rest) none v h1 with hm | hacc
        · simpa [h1] using hm
        · exact absurd hacc (by simp)
    · -- t1 ∈ trims
      rcases h2 : (scanPair id t (q :: rest) none).2 with _ | w
      · rcases lastD_mem rest q with he | hm
        · simp [h2, he]
        · simpa [h2] using List.mem_cons_of_mem q hm
      · simpa [h2] using (scanPair_hi_some id t (q :: rest) none w h2).1
    · -- bracket low
      rcases h1 : (scanPair id t (q :: rest) none).1 with _ | v
      · exact Or.inr fun tv hv =>
          le_of_lt (scanPair_lo_none_sorted id t (q :: rest) none hs h1 tv hv)
      · exact Or.inl (by
          simpa [h1] using scanPair_lo_le id t (q :: rest) none (by simp) v h1)
    · -- bracket high
      rcases h2 : (scanPair id t (q :: rest) none).2 with _ | w
      · exact Or.inr fun tv hv =>
          le_of_lt (scanPair_hi_none id t (q :: rest) none h2 tv hv)
      · exact Or.inl (by simpa [h2] using (scanPair_hi_some id t (q :: rest) none w h2).2)
    · -- maximality of t0
      intro tv hv hle
      obtain ⟨v, hv1, hvle⟩ := scanPair_lo_max id t (q :: rest) none hs hneq tv hv hle
      simpa [hv1] using hvle
    · -- minimality of t1
      intro tv hv hle
      rcases h2 : (scanPair id t (q :: rest) none).2 with _ | w
      · exact absurd (scanPair_hi_none id t (q :: rest) none h2 tv hv) (not_lt_of_le hle)
      · simpa [h2] using scanPair_hi_min id t (q :: rest) none w hs h2 tv hv hle
    · -- collapse when t is below every tabulated trim
      intro hall
      have := scanPair_head_gt id t q rest none (hall q (List.mem_cons_self q rest))
      simp [this]
    · -- collapse when t is above every tabulated trim
      intro hall
      have := scanPair_all_lt id t rest q none hall
      simp [this]

/-- When the exact-trim base query is empty, exact-trim resolution yields
`none` (there is no trim-null retry for base volumes: the retry in
`_nearest_pair_along` is guarded by `heel_code is not None`). -/
theorem baseVolumeAtTrim_of_empty (db : List CalRow) (name : String)
    (trim : Option ℚ) (axis : Axis) (x : ℚ)
    (h : queryRows db name trim none axis = []) :
    baseVolumeAtTrim db name trim axis x = none := by
  simp [baseVolumeAtTrim, nearestPairAlong, h, nearestPair]

/-- Routing of `_base_volume` into the cross-trim branch, written out on the
bracket pair returned by `_nearest_trims`. -/
theorem crossTrim_eq (db : List CalRow) (name : String) (trim : ℚ)
    (axis : Axis) (x : ℚ)
    (hexact : queryRows db name (some trim) none axis = [])
    (t0 t1 : ℚ)
    (hnt : nearestTrims (availableTrims db name) trim = some (t0, t1)) :
    baseVolume db name trim axis x =
      if t0 = t1 then baseVolumeAtTrim db name (some t0) axis x
      else
        match baseVolumeAtTrim db name (some t0) axis x,
              baseVolumeAtTrim db name (some t1) axis x with
        | none, v1 => v1
        | v0, none => v0
        | some v0, some v1 => some (interp trim t0 v0 t1 v1) := by
  have h1 : baseVolumeAtTrim db name (some trim) axis x = none :=
    baseVolumeAtTrim_of_empty db name (some trim) axis x hexact
  simp only [baseVolume, h1, baseVolumeCrossTrim, hnt]

/-- Evaluation pieces for the cross-trim scenario fixture. -/
theorem crossDb_exact_empty :
    queryRows crossDb "T1" (some 0) none Axis.sounding = [] := by
  norm_num [queryRows, crossDb, List.filterMap, List.insertionSort, axisVal, fieldVal, rowLE]

theorem crossDb_trims : availableTrims crossDb "T1" = [-2, 2] := by
  norm_num [availableTrims, crossDb, List.filterMap, List.insertionSort, List.orderedInsert,
    List.dedup, List.pwFilter]

theorem crossDb_base :
    baseVolume crossDb "T1" 0 Axis.sounding 100 = some 100 := by
  norm_num [baseVolume, baseVolumeAtTrim, baseVolumeCrossTrim, nearestPairAlong, nearestTrims,
    availableTrims, queryRows, crossDb, List.filterMap, List.insertionSort, List.orderedInsert,
    List.dedup, List.pwFilter, axisVal, fieldVal, rowLE, nearestPair, scanPair, lastD, interp]

/-- C2: when no base-volume rows exist at the exact requested trim but the
tank has tabulated trims, base-volume resolution brackets the requested trim
between the nearest tabulated trims `t0 ≤ trim ≤ t1` (collapsing to the
single nearest trim beyond either edge), resolves the volume at each bracket
trim, linearly interpolates over trim, and — when exactly one bracket volume
is `none` — returns the resolvable one instead of failing.  In particular,
with base tables only at trim `-2` (`(0,0),(100,90)`) and trim `2`
(`(0,0),(100,110)`), requesting trim `0` at level `100` yields base volume
`100`. -/
theorem crossTrim_bracket_interpolate (db : List CalRow) (name : String)
    (trim : ℚ) (axis : Axis) (x : ℚ)
    (hexact : queryRows db name (some trim) none axis = [])
    (hne : availableTrims db name ≠ []) :
    (∃ t0 t1, nearestTrims (availableTrims db name) trim = some (t0, t1) ∧
      t0 ∈ availableTrims db name ∧ t1 ∈ availableTrims db name ∧
      (t0 ≤ trim ∨ ∀ tv ∈ availableTrims db name, trim ≤ tv) ∧
      (trim ≤ t1 ∨ ∀ tv ∈ availableTrims db name, tv ≤ trim) ∧
      (∀ tv ∈ availableTrims db name, tv ≤ trim → tv ≤ t0) ∧
      (∀ tv ∈ availableTrims db name, trim ≤ tv → t1 ≤ tv) ∧
      ((∀ tv ∈ availableTrims db name, trim < tv) → t0 = t1) ∧
      ((∀ tv ∈ availableTrims db name, tv < trim) → t0 = t1) ∧
      baseVolume db name trim axis x =
        (if t0 = t1 then baseVolumeAtTrim db name (some t0) axis x
         else
           match baseVolumeAtTrim db name (some t0) axis x,
                 baseVolumeAtTrim db name (some t1) axis x with
           | none, v1 => v1
           | v0, none => v0
           | some v0, some v1 => some (interp trim t0 v0 t1 v1))) ∧
    baseVolume crossDb "T1" 0 Axis.sounding 100 = some 100 := by
  constructor
  · obtain ⟨t0, t1, hnt, hm0, hm1, hb0, hb1, hmax, hmin, hc1, hc2⟩ :=
      nearestTrims_spec (availableTrims db name) trim (availableTrims_sorted db name) hne
    exact ⟨t0, t1, hnt, hm0, hm1, hb0, hb1, hmax, hmin, hc1, hc2,
      crossTrim_eq db name trim axis x hexact t0 t1 hnt⟩
  · exact crossDb_base

theorem crossTrim_bracket_interpolate_app :
    queryRows crossDb "T1" (some 0) none Axis.sounding = [] ∧
    availableTrims crossDb "T1" ≠ [] ∧
    baseVolume crossDb "T1" 0 Axis.sounding 100 = some 100 :=
  ⟨crossDb_exact_empty, by rw [crossDb_trims]; exact List.cons_ne_nil _ _,
    (crossTrim_bracket_interpolate crossDb "T1" 0 Axis.sounding 100 crossDb_exact_empty
      (by rw [crossDb_trims]; exact List.cons_ne_nil _ _)).2⟩

/-- For base volumes (`heel_code = None`) there is no trim-null retry in
`_nearest_pair_along`. -/
theorem nearestPairAlong_base (db : List CalRow) (name : String)
    (trim : Option ℚ) (axis : Axis) (x : ℚ) :
    nearestPairAlong db name trim none axis x =
      nearestPair (queryRows db name trim none axis) x := by
  simp [nearestPairAlong]

/-- Bracket search at a tabulated node of a strictly increasing table
returns the node itself on both sides. -/
theorem nearestPair_node (rows : List (ℚ × ℚ)) (x y : ℚ)
    (hs : rows.Pairwise (fun a b => a.1 < b.1))
    (hm : (x, y) ∈ rows) :
    nearestPair rows x = some (x, y, x, y) := by
  obtain ⟨r0, rest, rfl⟩ : ∃ r0 rest, rows = r0 :: rest := by
    cases rows with
    | nil => simp at hm
    | cons r0 rest => exact ⟨r0, rest, rfl⟩
  have hle : (r0 :: rest).Pairwise (fun a b : ℚ × ℚ => a.1 ≤ b.1) :=
    hs.imp (fun h => le_of_lt h)
  have hxmin : r0.1 ≤ x := by
    rcases List.mem_cons.mp hm with he | hmr
    · rw [← he]
    · exact le_of_lt ((List.pairwise_cons.mp hs).1 (x, y) hmr)
  have hxmax : x ≤ (lastD rest r0).1 :=
    key_le_lastD Prod.fst rest r0 hle (x, y) hm
  have hclamp : max (min x (lastD rest r0).1) r0.1 = x := by
    rw [min_eq_left hxmax, max_eq_left hxmin]
  simp only [nearestPair, hclamp,
    scanPair_node Prod.fst x (r0 :: rest) none (x, y) hs hm rfl, Option.getD_some]

/-- C9: for every tank and trim present verbatim in the calibration data and
every tabulated axis node `x` of the `(tank, trim)` base-volume group (whose
axis values are strictly increasing, per the data-model invariant),
base-volume resolution at `x` returns exactly the stored volume; the
equal-endpoint case of the interpolator returns `y0`. -/
theorem resolve_at_node_identity (db : List CalRow) (name : String) (trim : ℚ)
    (axis : Axis) (x y : ℚ)
    (hs : (queryRows db name (some trim) none axis).Pairwise (fun a b => a.1 < b.1))
    (hm : (x, y) ∈ queryRows db name (some trim) none axis) :
    baseVolume db name trim axis x = some y ∧
    ∀ z a b c : ℚ, interp z a b a c = b := by
  constructor
  · have hnp : nearestPairAlong db name (some trim) none axis x = some (x, y, x, y) := by
      rw [nearestPairAlong_base]
      exact nearestPair_node _ x y hs hm
    simp [baseVolume, baseVolumeAtTrim, hnp, interp]
  · intro z a b c
    simp [interp]

theorem resolve_at_node_identity_app :
    (queryRows crossDb "T1" (some (-2)) none Axis.sounding).Pairwise
      (fun a b => a.1 < b.1) ∧
    ((100 : ℚ), (90 : ℚ)) ∈ queryRows crossDb "T1" (some (-2)) none Axis.sounding ∧
    baseVolume crossDb "T1" (-2) Axis.sounding 100 = some 90 := by
  have hq : queryRows crossDb "T1" (some (-2)) none Axis.sounding = [(0, 0), (100, 90)] := by
    norm_num [queryRows, crossDb, List.filterMap, List.insertionSort, List.orderedInsert,
      axisVal, fieldVal, rowLE]
  have hs : (queryRows crossDb "T1" (some (-2)) none Axis.sounding).Pairwise
      (fun a b => a.1 < b.1) := by
    rw [hq]
    norm_num
  have hm : ((100 : ℚ), (90 : ℚ)) ∈ queryRows crossDb "T1" (some (-2)) none Axis.sounding := by
    rw [hq]
    norm_num
  exact ⟨hs, hm,
    (resolve_at_node_identity crossDb "T1" (-2) Axis.sounding 100 90 hs hm).1⟩

/-- C3: the pipeline computation fails if and only if the base volume is
unresolvable; a heel-correction lookup that finds no rows — the trim-null
retry included — never fails the reading and contributes exactly `0.0`:
when the exact-trim heel query is empty the lookup retries with null trim,
a discrete lookup that still finds nothing yields correction `0`, and a
continuous lookup whose anchor codes find nothing yields correction `0`. -/
theorem computeVolumes_error_iff_noBase (db : List CalRow) (name : String)
    (trim : ℚ) (axis : Axis) (x : ℚ) (heel : Option String) :
    ((∃ e, computeVolumes db name trim axis x heel = Except.error e) ↔
      baseVolume db name trim axis x = none) ∧
    (∀ code : String, queryRows db name (some trim) (some code) axis = [] →
      nearestPairAlong db name (some trim) (some code) axis x =
        nearestPair (queryRows db name none (some code) axis) x) ∧
    (∀ raw b, baseVolume db name trim axis x = some b →
      (parseHeel (some raw)).1 = some "DISCRETE" →
      nearestPairAlong db name (some trim) (some (stripUpper raw)) axis x = none →
      computeVolumes db name trim axis x (some raw) = Except.ok (b, 0, b + 0)) ∧
    (∀ (side : String) (deg : ℚ),
      nearestPairAlong db name (some trim)
        (some (if side = "P" then "P1" else "S-1")) axis x = none →
      nearestPairAlong db name (some trim)
        (some (if side = "P" then "P2" else "S-2")) axis x = none →
      continuousHeelCorr db name trim side deg axis x = 0) := by
  refine ⟨?_, ?_, ?_, ?_⟩
  · cases hb : baseVolume db name trim axis x with
    | none => simp [computeVolumes, hb]
    | some b => simp [computeVolumes, hb]
  · intro code hq
    simp [nearestPairAlong, hq]
  · intro raw b hb hdisc hmiss
    rcases hph : parseHeel (some raw) with ⟨sv, dv⟩
    rw [hph] at hdisc
    subst hdisc
    simp only [computeVolumes, hb, heelCorrOf, hph]
    simp [heelCorrAt, hmiss]
  · intro side deg h1 h2
    simp only [continuousHeelCorr, heelCorrAt, h1, h2]
    split_ifs <;> ring

theorem computeVolumes_error_iff_noBase_app :
    baseVolume heelDb "T1" 0 Axis.sounding 50 = some 5 ∧
    (parseHeel (some "XX")).1 = some "DISCRETE" ∧
    nearestPairAlong heelDb "T1" (some 0) (some (stripUpper "XX")) Axis.sounding 50 = none ∧
    computeVolumes heelDb "T1" 0 Axis.sounding 50 (some "XX") = Except.ok (5, 0, 5 + 0) := by
  have hb : baseVolume heelDb "T1" 0 Axis.sounding 50 = some 5 := by
    norm_num [baseVolume, baseVolumeAtTrim, nearestPairAlong, queryRows, heelDb,
      List.filterMap, List.insertionSort, List.orderedInsert, axisVal, fieldVal, rowLE,
      nearestPair, scanPair, lastD, interp]
  have hd : (parseHeel (some "XX")).1 = some "DISCRETE" := by decide
  have hm : nearestPairAlong heelDb "T1" (some 0) (some (stripUpper "XX")) Axis.sounding 50
      = none := by
    norm_num [nearestPairAlong, queryRows, heelDb, List.filterMap, List.insertionSort,
      axisVal, fieldVal, stripUpper, pyStrip, pyUpper, nearestPair]
  exact ⟨hb, hd, hm,
    (computeVolumes_error_iff_noBase heelDb "T1" 0 Axis.sounding 50 (some "XX")).2.2.1
      "XX" 5 hb hd hm⟩

/-- C5: for positive continuous heel degrees the correction is `deg * c1`
for `deg ≤ 1` and `c1 + (min deg 2 - 1) * (c2 - c1)` for `deg > 1`, where
`c1`/`c2` are the discrete corrections at the side's 1°/2° anchor codes; the
two branches agree at `deg = 1`, and every `deg ≥ 2` yields the 2° value. -/
theorem continuousHeelCorr_piecewise (db : List CalRow) (name : String)
    (trim : ℚ) (side : String) (deg : ℚ) (axis : Axis) (x : ℚ)
    (_hside : side = "P" ∨ side = "S") (hdeg : 0 < deg) :
    (deg ≤ 1 → continuousHeelCorr db name trim side deg axis x =
      deg * heelCorrAt db name trim (if side = "P" then "P1" else "S-1") axis x) ∧
    (1 < deg → continuousHeelCorr db name trim side deg axis x =
      heelCorrAt db name trim (if side = "P" then "P1" else "S-1") axis x +
        (min deg 2 - 1) *
          (heelCorrAt db name trim (if side = "P" then "P2" else "S-2") axis x -
            heelCorrAt db name trim (if side = "P" then "P1" else "S-1") axis x)) ∧
    (1 * heelCorrAt db name trim (if side = "P" then "P1" else "S-1") axis x =
      heelCorrAt db name trim (if side = "P" then "P1" else "S-1") axis x +
        (min (1 : ℚ) 2 - 1) *
          (heelCorrAt db name trim (if side = "P" then "P2" else "S-2") axis x -
            heelCorrAt db name trim (if side = "P" then "P1" else "S-1") axis x)) ∧
    (2 ≤ deg → continuousHeelCorr db name trim side deg axis x =
      heelCorrAt db name trim (if side = "P" then "P2" else "S-2") axis x) := by
  have hd0 : ¬deg ≤ 0 := not_le_of_lt hdeg
  refine ⟨?_, ?_, ?_, ?_⟩
  · intro hle
    have hmin : min deg 2 = deg := min_eq_left (le_trans hle one_le_two)
    rw [continuousHeelCorr, if_neg hd0, hmin, if_pos hle]
  · intro hlt
    have hmin : ¬min deg 2 ≤ 1 := not_le_of_lt (lt_min hlt one_lt_two)
    rw [continuousHeelCorr, if_neg hd0, if_neg hmin]
  · have : min (1 : ℚ) 2 = 1 := min_eq_left one_le_two
    rw [this]
    ring
  · intro h2
    have hmin : min deg 2 = 2 := min_eq_right h2
    have hgt : ¬min deg 2 ≤ 1 := by
      rw [hmin]
      norm_num
    rw [continuousHeelCorr, if_neg hd0, if_neg hgt, hmin]
    ring

theorem continuousHeelCorr_piecewise_app :
    (0 : ℚ) < 3/2 ∧
    continuousHeelCorr heelDb "T1" 0 "P" (3/2) Axis.sounding 50 =
      heelCorrAt heelDb "T1" 0 "P1" Axis.sounding 50 +
        (min (3/2 : ℚ) 2 - 1) *
          (heelCorrAt heelDb "T1" 0 "P2" Axis.sounding 50 -
            heelCorrAt heelDb "T1" 0 "P1" Axis.sounding 50) ∧
    heelCorrAt heelDb "T1" 0 "P1" Axis.sounding 50 = 2 ∧
    heelCorrAt heelDb "T1" 0 "P2" Axis.sounding 50 = 6 := by
  refine ⟨by norm_num, ?_, ?_, ?_⟩
  · have h := (continuousHeelCorr_piecewise heelDb "T1" 0 "P" (3/2) Axis.sounding 50
      (Or.inl rfl) (by norm_num)).2.1 (by norm_num)
    simpa using h
  · norm_num [heelCorrAt, nearestPairAlong, queryRows, heelDb, List.filterMap,
      List.insertionSort, axisVal, fieldVal, rowLE, nearestPair, scanPair, lastD, interp]
  · norm_num [heelCorrAt, nearestPairAlong, queryRows, heelDb, List.filterMap,
      List.insertionSort, axisVal, fieldVal, rowLE, nearestPair, scanPair, lastD, interp]

/-- C1: for every density `rho > 0` and temperature `T`, the VCF is
`exp(-alpha*dT*(1 + 0.8*alpha*dT))` with `dT = T - 15` and `alpha` selected
by exact density-region thresholds: `(346.42278 + 0.43884*rho)/rho^2` for
`rho ≤ 770`, `-0.0033612 + 2680.32/rho^2` for `770 < rho < 778`,
`594.5418/rho^2` for `778 ≤ rho < 839`, and
`(186.9696 + 0.48618*rho)/rho^2` for `rho ≥ 839`. -/
theorem vcf54b_alpha_regions (rho T : ℚ) (_hrho : 0 < rho) :
    (rho ≤ 770 → vcf_54b rho T =
      Real.exp (((-((346.42278 + 0.43884 * rho) / rho ^ 2) * (T - 15) *
        (1 + 0.8 * ((346.42278 + 0.43884 * rho) / rho ^ 2) * (T - 15)) : ℚ) : ℝ))) ∧
    (770 < rho → rho < 778 → vcf_54b rho T =
      Real.exp (((-(-0.0033612 + 2680.32 / rho ^ 2) * (T - 15) *
        (1 + 0.8 * (-0.0033612 + 2680.32 / rho ^ 2) * (T - 15)) : ℚ) : ℝ))) ∧
    (778 ≤ rho → rho < 839 → vcf_54b rho T =
      Real.exp (((-(594.5418 / rho ^ 2) * (T - 15) *
        (1 + 0.8 * (594.5418 / rho ^ 2) * (T - 15)) : ℚ) : ℝ))) ∧
    (839 ≤ rho → vcf_54b rho T =
      Real.exp (((-((186.9696 + 0.48618 * rho) / rho ^ 2) * (T - 15) *
        (1 + 0.8 * ((186.9696 + 0.48618 * rho) / rho ^ 2) * (T - 15)) : ℚ) : ℝ))) := by
  refine ⟨?_, ?_, ?_, ?_⟩
  · intro h
    have ha : alpha54b rho = (346.42278 + 0.43884 * rho) / rho ^ 2 := by
      rw [alpha54b, if_pos h]
    rw [vcf_54b]
    congr 1
    exact_mod_cast by rw [vcfArg, ha]
  · intro h1 h2
    have ha : alpha54b rho = -0.0033612 + 2680.32 / rho ^ 2 := by
      rw [alpha54b, if_neg (not_le_of_lt h1), if_pos ⟨h1, h2⟩]
    rw [vcf_54b]
    congr 1
    exact_mod_cast by rw [vcfArg, ha]
  · intro h1 h2
    have hn1 : ¬rho ≤ 770 := not_le_of_lt (lt_of_lt_of_le (by norm_num) h1)
    have hn2 : ¬(770 < rho ∧ rho < 778) := fun hc => absurd h1 (not_le_of_lt hc.2)
    have ha : alpha54b rho = (594.5418 + 0 * rho) / rho ^ 2 := by
      rw [alpha54b, if_neg hn1, if_neg hn2, if_pos ⟨h1, h2⟩]
    rw [vcf_54b]
    congr 1
    exact_mod_cast by rw [vcfArg, ha]; ring
  · intro h
    have hn1 : ¬rho ≤ 770 := not_le_of_lt (lt_of_lt_of_le (by norm_num) h)
    have hn2 : ¬(770 < rho ∧ rho < 778) := fun hc =>
      absurd (lt_of_lt_of_le (hc.2.trans (by norm_num : (778 : ℚ) < 839)) h) (lt_irrefl rho)
    have hn3 : ¬(778 ≤ rho ∧ rho < 839) := fun hc => absurd h (not_le_of_lt hc.2)
    have ha : alpha54b rho = (186.9696 + 0.48618 * rho) / rho ^ 2 := by
      rw [alpha54b, if_neg hn1, if_neg hn2, if_neg hn3]
    rw [vcf_54b]
    congr 1
    exact_mod_cast by rw [vcfArg, ha]

theorem vcf54b_alpha_regions_app :
    (0 : ℚ) < 800 ∧ (778 : ℚ) ≤ 800 ∧ (800 : ℚ) < 839 ∧
    vcf_54b 800 20 =
      Real.exp (((-(594.5418 / (800 : ℚ) ^ 2) * ((20 : ℚ) - 15) *
        (1 + 0.8 * (594.5418 / (800 : ℚ) ^ 2) * ((20 : ℚ) - 15)) : ℚ) : ℝ)) :=
  ⟨by norm_num, by norm_num, by norm_num,
    (vcf54b_alpha_regions 800 20 (by norm_num)).2.2.1 (by norm_num) (by norm_num)⟩

/-- C4: when the resolved base volume plus heel correction is negative, the
observed volume is clamped to `0.0` at the pipeline boundary (`calc_one`)
rather than propagated — the row then shows `v15 = 0` and `mass = 0` — and
in general the volume at 15°C and the mass that `calc_one` produces are
never negative. -/
theorem calcOne_clamps_negative_observed (db : List CalRow) (name : String)
    (trim : ℚ) (axis : Axis) (x : ℚ) (heel : Option String) (dens15 temp : ℚ)
    (b c v : ℚ)
    (hok : computeVolumes db name trim axis x heel = Except.ok (b, c, v))
    (hneg : v < 0) (hnz : ¬(axis = Axis.ullage ∧ x = 0)) :
    calcOne db name trim axis x heel dens15 temp =
      Except.ok ⟨vcf_54b dens15 temp, 0, 0⟩ ∧
    (∀ (db' : List CalRow) (name' : String) (trim' : ℚ) (axis' : Axis) (x' : ℚ)
      (heel' : Option String) (dens' temp' : ℚ) (out : RowOut),
      calcOne db' name' trim' axis' x' heel' dens' temp' = Except.ok out →
      0 ≤ out.v15 ∧ 0 ≤ out.massT) := by
  constructor
  · have hclamp : max 0 ((v : ℚ) : ℝ) = 0 :=
      max_eq_left (le_of_lt (by exact_mod_cast hneg))
    rw [calcOne, if_neg hnz, hok]
    simp [hclamp]
  · intro db' name' trim' axis' x' heel' dens' temp' out hout
    rw [calcOne] at hout
    by_cases hz : axis' = Axis.ullage ∧ x' = 0
    · rw [if_pos hz] at hout
      obtain rfl : (⟨1, 0, 0⟩ : RowOut) = out := by simpa using hout
      exact ⟨le_refl 0, le_refl 0⟩
    · rw [if_neg hz] at hout
      cases hcv : computeVolumes db' name' trim' axis' x' heel' with
      | error e => rw [hcv] at hout; simp at hout
      | ok triple =>
        obtain ⟨b', c', v'⟩ := triple
        rw [hcv] at hout
        obtain rfl : (⟨vcf_54b dens' temp',
            max 0 (max 0 ((v' : ℚ) : ℝ) * vcf_54b dens' temp'),
            max 0 (max 0 (max 0 ((v' : ℚ) : ℝ) * vcf_54b dens' temp') * ((dens' : ℚ) : ℝ) / 1000)⟩
            : RowOut) = out := by simpa using hout
        exact ⟨le_max_left 0 _, le_max_left 0 _⟩

theorem calcOne_clamps_negative_observed_app :
    computeVolumes negDb "T1" 0 Axis.sounding 50 none = Except.ok (-5, 0, -5 + 0) ∧
    (-5 + 0 : ℚ) < 0 ∧
    calcOne negDb "T1" 0 Axis.sounding 50 none 850 20 =
      Except.ok ⟨vcf_54b 850 20, 0, 0⟩ := by
  have hok : computeVolumes negDb "T1" 0 Axis.sounding 50 none = Except.ok (-5, 0, -5 + 0) := by
    norm_num [computeVolumes, baseVolume, baseVolumeAtTrim, nearestPairAlong, queryRows,
      negDb, List.filterMap, List.insertionSort, List.orderedInsert, axisVal, fieldVal, rowLE,
      nearestPair, scanPair, lastD, interp, heelCorrOf, parseHeel]
  exact ⟨hok, by norm_num,
    (calcOne_clamps_negative_observed negDb "T1" 0 Axis.sounding 50 none 850 20
      (-5) 0 (-5 + 0) hok (by norm_num) (by simp)).1⟩

/-- Mean-value style lower bound: for `0 ≤ a ≤ b`,
`exp b - exp a ≥ b - a`. -/
theorem exp_gap (a b : ℝ) (ha : 0 ≤ a) (hab : a ≤ b) :
    b - a ≤ Real.exp b - Real.exp a := by
  have h1 : Real.exp b = Real.exp a * Real.exp (b - a) := by
    rw [← Real.exp_add]
    ring_nf
  have h2 : b - a + 1 ≤ Real.exp (b - a) := Real.add_one_le_exp (b - a)
  have h3 : 1 ≤ Real.exp a := Real.one_le_exp ha
  nlinarith [sub_nonneg.mpr hab]

/-- Exact rational facts about the VCF exponent on both sides of the 778
region seam, evaluated `10⁻⁶` inside the transition region at `T = 5`. -/
theorem vcfArg_seam_778 :
    (0 : ℚ) ≤ vcfArg 778 5 ∧
    vcfArg 778 5 ≤ vcfArg (778 - 1/1000000) 5 ∧
    (1/2000 : ℚ) < vcfArg (778 - 1/1000000) 5 - vcfArg 778 5 := by
  norm_num [vcfArg, alpha54b]

/-- Exact rational facts about the VCF exponent on both sides of the 770
region seam, evaluated `10⁻⁶` inside the transition region at `T = 5`. -/
theorem vcfArg_seam_770 :
    (0 : ℚ) ≤ vcfArg 770 5 ∧
    vcfArg 770 5 ≤ vcfArg (770 + 1/1000000) 5 ∧
    (1/50000 : ℚ) < vcfArg (770 + 1/1000000) 5 - vcfArg 770 5 := by
  norm_num [vcfArg, alpha54b]

/-- The VCF jump across a seam is at least the jump of its exponent. -/
theorem vcf54b_gap_ge (r1 r2 : ℚ)
    (h0 : (0 : ℚ) ≤ vcfArg r1 5) (hle : vcfArg r1 5 ≤ vcfArg r2 5) :
    ((vcfArg r2 5 - vcfArg r1 5 : ℚ) : ℝ) ≤ vcf_54b r2 5 - vcf_54b r1 5 := by
  have := exp_gap ((vcfArg r1 5 : ℚ) : ℝ) ((vcfArg r2 5 : ℚ) : ℝ)
    (by exact_mod_cast h0) (by exact_mod_cast hle)
  rw [vcf_54b, vcf_54b]
  push_cast
  linarith

/-- C7 counterexample: at fixed `T = 5 ≠ 15`, the VCF evaluated `10⁻⁶`
inside the transition region differs from the VCF at the 778 boundary by
more than `1/2000` — far beyond floating-point noise (in particular beyond
a `10⁻⁹` tolerance), so the alpha selection is discontinuous there. -/
theorem vcf54b_seam_jump_cex :
    (1/2000 : ℝ) < |vcf_54b (778 - 1/1000000) 5 - vcf_54b 778 5| ∧
    ¬|vcf_54b (778 - 1/1000000) 5 - vcf_54b 778 5| ≤ 1/1000000000 := by
  obtain ⟨h0, hle, hgap⟩ := vcfArg_seam_778
  have hge := vcf54b_gap_ge 778 (778 - 1/1000000) h0 hle
  have hq : (1/2000 : ℝ) < ((vcfArg (778 - 1/1000000) 5 - vcfArg 778 5 : ℚ) : ℝ) := by
    rw [show (1/2000 : ℝ) = ((1/2000 : ℚ) : ℝ) by norm_num]
    exact Rat.cast_lt.mpr hgap
  have hx : (1/2000 : ℝ) < vcf_54b (778 - 1/1000000) 5 - vcf_54b 778 5 :=
    lt_of_lt_of_le hq hge
  constructor
  · exact lt_of_lt_of_le hx (le_abs_self _)
  · intro habs
    have := lt_of_lt_of_le hx (le_abs_self _)
    linarith

/-- C7 (amended): the piecewise alpha selection of `vcf_54b` is genuinely
discontinuous at both density-region seams: at fixed `T = 5`, evaluating
`10⁻⁶` inside/outside the boundary, the VCF jumps by more than `1/50000`
across `rho = 770` and by more than `1/2000` across `rho = 778` — not
floating-point noise. -/
theorem vcf54b_seam_discontinuity :
    (1/50000 : ℝ) < |vcf_54b (770 + 1/1000000) 5 - vcf_54b 770 5| ∧
    (1/2000 : ℝ) < |vcf_54b (778 - 1/1000000) 5 - vcf_54b 778 5| := by
  constructor
  · obtain ⟨h0, hle, hgap⟩ := vcfArg_seam_770
    have hge := vcf54b_gap_ge 770 (770 + 1/1000000) h0 hle
    have hq : (1/50000 : ℝ) < ((vcfArg (770 + 1/1000000) 5 - vcfArg 770 5 : ℚ) : ℝ) := by
      rw [show (1/50000 : ℝ) = ((1/50000 : ℚ) : ℝ) by norm_num]
      exact Rat.cast_lt.mpr hgap
    exact lt_of_lt_of_le (lt_of_lt_of_le hq hge) (le_abs_self _)
  · obtain ⟨h0, hle, hgap⟩ := vcfArg_seam_778
    have hge := vcf54b_gap_ge 778 (778 - 1/1000000) h0 hle
    have hq : (1/2000 : ℝ) < ((vcfArg (778 - 1/1000000) 5 - vcfArg 778 5 : ℚ) : ℝ) := by
      rw [show (1/2000 : ℝ) = ((1/2000 : ℚ) : ℝ) by norm_num]
      exact Rat.cast_lt.mpr hgap
    exact lt_of_lt_of_le (lt_of_lt_of_le hq hge) (le_abs_self _)


/-- The regex number token is a nonnegative rational. -/
theorem parseNumber_nonneg (l : List Char) (q : ℚ) (r : List Char)
    (h : parseNumber l = some (q, r)) : 0 ≤ q := by
  rw [parseNumber] at h
  split_ifs at h with h1
  split at h
  · split_ifs at h with h2 <;>
    · simp only [Option.some.injEq, Prod.mk.injEq] at h
      obtain ⟨rfl, rfl⟩ := h
      positivity
  · simp only [Option.some.injEq, Prod.mk.injEq] at h
    obtain ⟨rfl, rfl⟩ := h
    positivity

/-- A successful `<number><P|S>` match yields a P/S side and a nonnegative
number. -/
theorem matchNumSide_shape (l : List Char) (q : ℚ) (c : Char)
    (h : matchNumSide l = some (q, c)) : (c = 'P' ∨ c = 'S') ∧ 0 ≤ q := by
  rw [matchNumSide] at h
  split at h
  · simp at h
  · rename_i q2 rest hpn
    split at h
    · split_ifs at h with hcond
      simp only [Option.some.injEq, Prod.mk.injEq] at h
      obtain ⟨rfl, rfl⟩ := h
      exact ⟨hcond.1, parseNumber_nonneg _ _ _ hpn⟩
    · simp at h

/-- A successful `<P|S><number>` match yields a P/S side and a nonnegative
number. -/
theorem matchSideNum_shape (l : List Char) (c : Char) (q : ℚ)
    (h : matchSideNum l = some (c, q)) : (c = 'P' ∨ c = 'S') ∧ 0 ≤ q := by
  rw [matchSideNum] at h
  split at h
  · rename_i c2 rest
    split_ifs at h with hcond
    split at h
    · rename_i q2 rest2 hpn
      split_ifs at h with hws2
      simp only [Option.some.injEq, Prod.mk.injEq] at h
      obtain ⟨rfl, rfl⟩ := h
      exact ⟨hcond, parseNumber_nonneg _ _ _ hpn⟩
    · simp at h
  · simp at h

/-- C8: the heel-spec parser is pure and total — every input (absent, empty
or any string) maps to exactly one of the three classifications: no heel,
discrete code, or a continuous side with strictly positive degrees. -/
theorem parseHeel_total_trichotomy (raw : Option String) :
    parseHeel raw = (none, none) ∨
    parseHeel raw = (some "DISCRETE", none) ∨
    ∃ sc d, (sc = "P" ∨ sc = "S") ∧ 0 < d ∧ parseHeel raw = (some sc, some d) := by
  cases raw with
  | none => exact Or.inl rfl
  | some str =>
    by_cases h1 : str.data = []
    · exact Or.inl (by simp [parseHeel, h1])
    · by_cases h2 : normHeel str ∈ codesL
      · exact Or.inr (Or.inl (by simp [parseHeel, h1, h2]))
      · rcases hf : pyFloat? (normHeel str) with _ | q
        · rcases hm1 : matchNumSide (normHeel str) with _ | ⟨q, c⟩
          · rcases hm2 : matchSideNum (normHeel str) with _ | ⟨c, q⟩
            · exact Or.inr (Or.inl (by simp [parseHeel, h1, h2, hf, hm1, hm2]))
            · obtain ⟨hc, hq0⟩ := matchSideNum_shape _ c q hm2
              by_cases hq : q = 0
              · exact Or.inl (by simp [parseHeel, h1, h2, hf, hm1, hm2, hq])
              · refine Or.inr (Or.inr ⟨String.mk [c], q, ?_,
                  lt_of_le_of_ne hq0 (Ne.symm hq),
                  by simp [parseHeel, h1, h2, hf, hm1, hm2, hq]⟩)
                rcases hc with rfl | rfl
                · exact Or.inl rfl
                · exact Or.inr rfl
          · obtain ⟨hc, hq0⟩ := matchNumSide_shape _ q c hm1
            by_cases hq : q = 0
            · exact Or.inl (by simp [parseHeel, h1, h2, hf, hm1, hq])
            · refine Or.inr (Or.inr ⟨String.mk [c], q, ?_,
                lt_of_le_of_ne hq0 (Ne.symm hq),
                by simp [parseHeel, h1, h2, hf, hm1, hq]⟩)
              rcases hc with rfl | rfl
              · exact Or.inl rfl
              · exact Or.inr rfl
        · by_cases hq : q = 0
          · exact Or.inl (by simp [parseHeel, h1, h2, hf, hq])
          · refine Or.inr (Or.inr ⟨if 0 < q then "P" else "S", |q|, ?_,
              abs_pos.mpr hq, by simp [parseHeel, h1, h2, hf, hq]⟩)
            by_cases hpos : 0 < q
            · exact Or.inl (if_pos hpos)
            · exact Or.inr (if_neg hpos)

/-- C10 counterexample: the input `"p1 deg"` is not an example of a
discrete-code classification: after normalization it is `"P1 "` (with a
trailing space), which is not one of the codes, and the side-number regex
classifies it as the continuous heel `("P", 1)`. -/
theorem parseHeel_p1deg_space_cex :
    parseHeel (some "p1 deg") = (some "P", some 1) ∧
    (some "P" : Option String) ≠ some "DISCRETE" := by
  constructor
  · norm_num +decide [parseHeel, normHeel, pyStrip, pyUpper, dropPat3, dropPat1, codesL,
      pyFloat?, pyFloatCore, skipWs, takeDigits, allWs, matchNumSide, matchSideNum,
      parseNumber, digitsVal]
  · simp

/-- C10 (amended): for every heel input the parser classifies as a discrete
code, the pipeline queries the correction with the raw input only
whitespace-stripped and uppercased — the `DEG`/`°` removal applied before
classification is not applied to the lookup key.  An input recognized as a
code only after that normalization (e.g. `"p1deg"`, normalized to `"P1"`)
is therefore queried under `"P1DEG"` and typically yields a `0.0`
correction even when `P1` data exists. -/
theorem discrete_lookup_key_stripUpper (db : List CalRow) (name : String)
    (trim : ℚ) (axis : Axis) (x : ℚ) (raw : String)
    (hdisc : (parseHeel (some raw)).1 = some "DISCRETE") :
    computeVolumes db name trim axis x (some raw) =
      (match baseVolume db name trim axis x with
       | none =>
         Except.error "No base volume found (check tank, trim, and sounding/ullage range)."
       | some b => Except.ok (b, heelCorrAt db name trim (stripUpper raw) axis x,
           b + heelCorrAt db name trim (stripUpper raw) axis x)) ∧
    parseHeel (some "p1deg") = (some "DISCRETE", none) ∧
    normHeel "p1deg" = ['P', '1'] ∧
    stripUpper "p1deg" = "P1DEG" ∧
    heelCorrAt heelDb "T1" 0 "P1" Axis.sounding 50 = 2 ∧
    heelCorrAt heelDb "T1" 0 (stripUpper "p1deg") Axis.sounding 50 = 0 ∧
    computeVolumes heelDb "T1" 0 Axis.sounding 50 (some "p1deg") =
      Except.ok (5, 0, 5 + 0) := by
  have hgen : ∀ (db' : List CalRow) (name' : String) (trim' : ℚ) (axis' : Axis)
      (x' : ℚ) (raw' : String), (parseHeel (some raw')).1 = some "DISCRETE" →
      computeVolumes db' name' trim' axis' x' (some raw') =
        (match baseVolume db' name' trim' axis' x' with
         | none =>
           Except.error "No base volume found (check tank, trim, and sounding/ullage range)."
         | some b => Except.ok (b, heelCorrAt db' name' trim' (stripUpper raw') axis' x',
             b + heelCorrAt db' name' trim' (stripUpper raw') axis' x')) := by
    intro db' name' trim' axis' x' raw' hd
    rcases hph : parseHeel (some raw') with ⟨sv, dv⟩
    rw [hph] at hd
    subst hd
    cases hb : baseVolume db' name' trim' axis' x' with
    | none => simp [computeVolumes, hb]
    | some b => simp [computeVolumes, hb, heelCorrOf, hph]
  have hb5 : baseVolume heelDb "T1" 0 Axis.sounding 50 = some 5 := by
    norm_num [baseVolume, baseVolumeAtTrim, nearestPairAlong, queryRows, heelDb,
      List.filterMap, List.insertionSort, List.orderedInsert, axisVal, fieldVal, rowLE,
      nearestPair, scanPair, lastD, interp]
  have hmiss : heelCorrAt heelDb "T1" 0 (stripUpper "p1deg") Axis.sounding 50 = 0 := by
    norm_num [heelCorrAt, nearestPairAlong, queryRows, heelDb, List.filterMap,
      List.insertionSort, axisVal, fieldVal, stripUpper, pyStrip, pyUpper, nearestPair]
  refine ⟨hgen db name trim axis x raw hdisc, by decide, by decide, by decide, ?_, hmiss, ?_⟩
  · norm_num [heelCorrAt, nearestPairAlong, queryRows, heelDb, List.filterMap,
      List.insertionSort, axisVal, fieldVal, rowLE, nearestPair, scanPair, lastD, interp]
  · rw [hgen heelDb "T1" 0 Axis.sounding 50 "p1deg" (by decide), hb5, hmiss]

theorem discrete_lookup_key_stripUpper_app :
    (parseHeel (some "XY")).1 = some "DISCRETE" ∧
    computeVolumes heelDb "T1" 0 Axis.sounding 50 (some "XY") =
      (match baseVolume heelDb "T1" 0 Axis.sounding 50 with
       | none =>
         Except.error "No base volume found (check tank, trim, and sounding/ullage range)."
       | some b => Except.ok (b, heelCorrAt heelDb "T1" 0 (stripUpper "XY") Axis.sounding 50,
           b + heelCorrAt heelDb "T1" 0 (stripUpper "XY") Axis.sounding 50)) :=
  ⟨by decide,
    (discrete_lookup_key_stripUpper heelDb "T1" 0 Axis.sounding 50 "XY" (by decide)).1⟩

/-! ### The shape of the C6 inputs: `<number><P|S>` / `<P|S><number>` -/

/-- The `<number>` part of the C6 claim: a digit string with an optional
dot-digits fractional part. -/
def numToken (ds fs : List Char) : List Char :=
  ds ++ (if fs = [] then [] else '.' :: fs)

/-- A heel string of the claimed form: number and side letter in either
order (`ord = true` puts the number first), optionally separated by one
space. -/
def heelToken (ds fs : List Char) (c : Char) (sep ord : Bool) : List Char :=
  if ord then numToken ds fs ++ (if sep then [' '] else []) ++ [c]
  else c :: ((if sep then [' '] else []) ++ numToken ds fs)

/-- The decimal value denoted by the number token. -/
def decValue (ds fs : List Char) : ℚ :=
  (digitsVal ds : ℚ) + (digitsVal fs : ℚ) / 10 ^ fs.length

theorem digitChar_facts :
    ∀ ch ∈ digitChars, Char.toUpper ch = ch ∧ ch.isDigit = true ∧
      ch.isWhitespace = false ∧ ch ≠ '.' ∧ ch ≠ 'D' ∧ ch ≠ '°' ∧
      ch ≠ '+' ∧ ch ≠ '-' := by decide

theorem sideChar_facts (c : Char) (hc : c = 'P' ∨ c = 'S') :
    Char.toUpper c = c ∧ c.isDigit = false ∧ c.isWhitespace = false ∧
      c ≠ '.' ∧ c ≠ 'D' ∧ c ≠ '°' ∧ c ≠ '+' ∧ c ≠ '-' := by
  rcases hc with rfl | rfl
  · exact (by decide)
  · exact (by decide)

theorem dropWhileWs_id (m : List Char)
    (h : ∀ a, m.head? = some a → a.isWhitespace = false) :
    m.dropWhile Char.isWhitespace = m := by
  cases m with
  | nil => rfl
  | cons b bs => simp [List.dropWhile_cons, h b rfl]

theorem pyStrip_id (l : List Char)
    (hh : ∀ a, l.head? = some a → a.isWhitespace = false)
    (hl : ∀ a, l.getLast? = some a → a.isWhitespace = false) :
    pyStrip l = l := by
  rw [pyStrip, dropWhileWs_id l hh, dropWhileWs_id l.reverse (by
    intro a ha
    rw [List.head?_reverse] at ha
    exact hl a ha), List.reverse_reverse]

theorem pyUpper_id (l : List Char) (h : ∀ ch ∈ l, Char.toUpper ch = ch) :
    pyUpper l = l := by
  have he : l.map Char.toUpper = l.map id := List.map_congr_left h
  rw [pyUpper, he, List.map_id]

theorem dropPat3_id (a b c : Char) : ∀ l : List Char, a ∉ l → dropPat3 a b c l = l
  | [], _ => rfl
  | [_], _ => rfl
  | [_, _], _ => rfl
  | x :: y :: z :: rest, h => by
    have hx : ¬(x = a ∧ y = b ∧ z = c) := fun hcon => h (by simp [hcon.1.symm])
    simp only [dropPat3, if_neg hx]
    have hrest : a ∉ y :: z :: rest := fun hm => h (List.mem_cons_of_mem x hm)
    rw [dropPat3_id a b c (y :: z :: rest) hrest]

theorem dropPat1_id (a : Char) : ∀ l : List Char, a ∉ l → dropPat1 a l = l
  | [], _ => rfl
  | x :: rest, h => by
    have hx : ¬x = a := fun he => h (by simp [he.symm])
    simp only [dropPat1, if_neg hx]
    rw [dropPat1_id a rest (fun hm => h (List.mem_cons_of_mem x hm))]

theorem allWs_false_of_mem (l : List Char) (a : Char) (ha : a ∈ l)
    (h : a.isWhitespace = false) : allWs l = false := by
  rw [allWs]
  rw [← Bool.not_eq_true, List.all_eq_true]
  push_neg
  exact ⟨a, ha, by simp [h]⟩

theorem numToken_ne_nil (ds fs : List Char) (hne : ds ≠ []) :
    numToken ds fs ≠ [] := by
  rw [numToken]
  intro h
  exact hne (List.append_eq_nil.mp h).1

theorem numToken_chars (ds fs : List Char)
    (hds : ∀ ch ∈ ds, ch ∈ digitChars) (hfs : ∀ ch ∈ fs, ch ∈ digitChars) :
    ∀ ch ∈ numToken ds fs, ch ∈ digitChars ∨ ch = '.' := by
  intro ch hch
  rw [numToken] at hch
  rcases List.mem_append.mp hch with h | h
  · exact Or.inl (hds ch h)
  · by_cases hf : fs = []
    · rw [if_pos hf] at h
      simp at h
    · rw [if_neg hf] at h
      rcases List.mem_cons.mp h with rfl | h
      · exact Or.inr rfl
      · exact Or.inl (hfs ch h)

theorem heelToken_chars (ds fs : List Char) (c : Char) (sep ord : Bool)
    (hds : ∀ ch ∈ ds, ch ∈ digitChars) (hfs : ∀ ch ∈ fs, ch ∈ digitChars) :
    ∀ ch ∈ heelToken ds fs c sep ord, ch ∈ digitChars ∨ ch = '.' ∨ ch = ' ' ∨ ch = c := by
  intro ch hch
  rw [heelToken] at hch
  have hsep : ∀ x ∈ (if sep then [' '] else ([] : List Char)), x = ' ' := by
    intro x hx
    cases sep with
    | true => simpa using hx
    | false => simp at hx
  cases ord with
  | true =>
    simp only [if_pos rfl] at hch
    rcases List.mem_append.mp hch with h | h
    · rcases List.mem_append.mp h with h2 | h2
      · rcases numToken_chars ds fs hds hfs ch h2 with h3 | h3
        · exact Or.inl h3
        · exact Or.inr (Or.inl h3)
      · exact Or.inr (Or.inr (Or.inl (hsep ch h2)))
    · rcases List.mem_singleton.mp h with rfl
      exact Or.inr (Or.inr (Or.inr rfl))
  | false =>
    simp only [Bool.false_eq_true, if_neg (fun h : False => h.elim)] at hch
    rcases List.mem_cons.mp hch with rfl | h
    · exact Or.inr (Or.inr (Or.inr rfl))
    · rcases List.mem_append.mp h with h2 | h2
      · exact Or.inr (Or.inr (Or.inl (hsep ch h2)))
      · rcases numToken_chars ds fs hds hfs ch h2 with h3 | h3
        · exact Or.inl h3
        · exact Or.inr (Or.inl h3)

theorem heelToken_head_cons (ds fs : List Char) (c : Char) (sep : Bool)
    (d0 : Char) (ds' : List Char) (hds : ds = d0 :: ds') :
    heelToken ds fs c sep true =
      d0 :: (ds' ++ (if fs = [] then [] else '.' :: fs) ++ (if sep then [' '] else []) ++ [c]) := by
  subst hds
  simp [heelToken, numToken, List.cons_append, List.append_assoc]

theorem heelToken_head_ws (ds fs : List Char) (c : Char) (sep ord : Bool)
    (hne : ds ≠ []) (hds : ∀ ch ∈ ds, ch ∈ digitChars) (hc : c = 'P' ∨ c = 'S') :
    ∀ a, (heelToken ds fs c sep ord).head? = some a → a.isWhitespace = false := by
  intro a ha
  cases ord with
  | true =>
    obtain ⟨d0, ds', rfl⟩ : ∃ d0 ds', ds = d0 :: ds' := by
      cases ds with
      | nil => exact absurd rfl hne
      | cons d0 ds' => exact ⟨d0, ds', rfl⟩
    rw [heelToken_head_cons _ fs c sep d0 ds' rfl] at ha
    obtain rfl : d0 = a := by simpa using ha
    exact (digitChar_facts d0 (hds d0 (List.mem_cons_self d0 ds'))).2.2.1
  | false =>
    rw [heelToken] at ha
    simp only [Bool.false_eq_true, if_false] at ha
    obtain rfl : c = a := by simpa using ha
    exact (sideChar_facts c hc).2.2.1

theorem heelToken_last_ws (ds fs : List Char) (c : Char) (sep ord : Bool)
    (hne : ds ≠ []) (hds : ∀ ch ∈ ds, ch ∈ digitChars)
    (hfs : ∀ ch ∈ fs, ch ∈ digitChars) (hc : c = 'P' ∨ c = 'S') :
    ∀ a, (heelToken ds fs c sep ord).getLast? = some a → a.isWhitespace = false := by
  intro a ha
  cases ord with
  | true =>
    rw [heelToken, if_pos rfl] at ha
    rw [List.getLast?_concat] at ha
    obtain rfl : c = a := by simpa using ha
    exact (sideChar_facts c hc).2.2.1
  | false =>
    rw [heelToken] at ha
    simp only [Bool.false_eq_true, if_false] at ha
    have hm : numToken ds fs ≠ [] := numToken_ne_nil ds fs hne
    have he1 : (c :: ((if sep then [' '] else []) ++ numToken ds fs)).getLast?
        = ((if sep then [' '] else []) ++ numToken ds fs).getLast? := by
      rw [show c :: ((if sep then [' '] else []) ++ numToken ds fs)
          = [c] ++ ((if sep then [' '] else []) ++ numToken ds fs) from rfl]
      exact List.getLast?_append_of_ne_nil [c] (by
        intro h
        exact hm (List.append_eq_nil.mp h).2)
    have he2 : ((if sep then [' '] else []) ++ numToken ds fs).getLast?
        = (numToken ds fs).getLast? :=
      List.getLast?_append_of_ne_nil _ hm
    rw [he1, he2] at ha
    have hmem : a ∈ numToken ds fs := by
      obtain ⟨hne2, he⟩ := List.mem_getLast?_eq_getLast (l := numToken ds fs) (x := a)
        (by rw [ha]; rfl)
      rw [he]
      exact List.getLast_mem hne2
    rcases numToken_chars ds fs hds hfs a hmem with h | rfl
    · exact (digitChar_facts a h).2.2.1
    · decide

/-- The normalization pipeline of `_parse_heel` leaves the C6 tokens
unchanged: they have no surrounding whitespace, no lowercase letters and no
`DEG`/`°` occurrences. -/
theorem normHeel_heelToken (ds fs : List Char) (c : Char) (sep ord : Bool)
    (hne : ds ≠ []) (hds : ∀ ch ∈ ds, ch ∈ digitChars)
    (hfs : ∀ ch ∈ fs, ch ∈ digitChars) (hc : c = 'P' ∨ c = 'S') :
    normHeel (String.mk (heelToken ds fs c sep ord)) = heelToken ds fs c sep ord := by
  have hchars := heelToken_chars ds fs c sep ord hds hfs
  have hupper : ∀ ch ∈ heelToken ds fs c sep ord, Char.toUpper ch = ch := by
    intro ch hch
    rcases hchars ch hch with h | rfl | rfl | rfl
    · exact (digitChar_facts ch h).1
    · decide
    · decide
    · exact (sideChar_facts _ hc).1
  have hD : 'D' ∉ heelToken ds fs c sep ord := by
    intro hm
    rcases hchars 'D' hm with h | h | h | h
    · exact absurd h (by decide)
    · exact absurd h (by decide)
    · exact absurd h (by decide)
    · exact (sideChar_facts c hc).2.2.2.2.1 h.symm
  have hdegree : '°' ∉ heelToken ds fs c sep ord := by
    intro hm
    rcases hchars '°' hm with h | h | h | h
    · exact absurd h (by decide)
    · exact absurd h (by decide)
    · exact absurd h (by decide)
    · exact (sideChar_facts c hc).2.2.2.2.2.1 h.symm
  rw [normHeel]
  rw [show (String.mk (heelToken ds fs c sep ord)).data = heelToken ds fs c sep ord from rfl]
  rw [pyStrip_id _ (heelToken_head_ws ds fs c sep ord hne hds hc)
    (heelToken_last_ws ds fs c sep ord hne hds hfs hc)]
  rw [pyUpper_id _ hupper, dropPat3_id _ _ _ _ hD, dropPat1_id _ _ hdegree]

theorem takeDigits_append (ds : List Char) (r : List Char)
    (h : ∀ ch ∈ ds, ch.isDigit = true) :
    takeDigits (ds ++ r) = (ds ++ (takeDigits r).1, (takeDigits r).2) := by
  induction ds with
  | nil => simp
  | cons d t ih =>
    have hd : d.isDigit = true := h d (List.mem_cons_self d t)
    have ht : ∀ ch ∈ t, ch.isDigit = true := fun ch hch => h ch (List.mem_cons_of_mem d hch)
    simp [takeDigits, hd, ih ht]

theorem takeDigits_head (r : List Char)
    (h : ∀ a, r.head? = some a → a.isDigit = false) :
    takeDigits r = ([], r) := by
  cases r with
  | nil => rfl
  | cons a t => simp [takeDigits, h a rfl]

theorem skipWs_sep (sep : Bool) (m : List Char)
    (h : ∀ a, m.head? = some a → a.isWhitespace = false) :
    skipWs ((if sep then [' '] else []) ++ m) = m := by
  cases sep with
  | true =>
    rw [if_pos rfl]
    show skipWs (' ' :: m) = m
    rw [skipWs, List.dropWhile_cons]
    simp only [show (' ').isWhitespace = true from rfl, if_pos rfl]
    exact dropWhileWs_id m h
  | false =>
    simp only [Bool.false_eq_true, if_false, List.nil_append]
    exact dropWhileWs_id m h

/-- The value `decValue` with an empty fractional part is the integer value. -/
theorem decValue_nil (ds : List Char) : decValue ds [] = (digitsVal ds : ℚ) := by
  simp [decValue, digitsVal]

/-- The regex number token parses exactly the constructed `<number>` and
leaves the rest, provided the rest does not begin with a digit or a dot. -/
theorem parseNumber_token (ds fs r : List Char) (hne : ds ≠ [])
    (hds : ∀ ch ∈ ds, ch ∈ digitChars) (hfs : ∀ ch ∈ fs, ch ∈ digitChars)
    (hr : ∀ a, r.head? = some a → a.isDigit = false ∧ a ≠ '.') :
    parseNumber (numToken ds fs ++ r) = some (decValue ds fs, r) := by
  have hdsd : ∀ ch ∈ ds, ch.isDigit = true := fun ch hch => (digitChar_facts ch (hds ch hch)).2.1
  have hfsd : ∀ ch ∈ fs, ch.isDigit = true := fun ch hch => (digitChar_facts ch (hfs ch hch)).2.1
  have hrd : takeDigits r = ([], r) := takeDigits_head r (fun a ha => (hr a ha).1)
  by_cases hf : fs = []
  · subst hf
    have he : numToken ds [] ++ r = ds ++ r := by simp [numToken]
    have htd : takeDigits (ds ++ r) = (ds, r) := by
      rw [takeDigits_append ds r hdsd, hrd]
      simp
    rw [he, parseNumber]
    simp only [htd, if_neg hne]
    rw [decValue_nil]
    cases r with
    | nil => rfl
    | cons a t =>
      have hnd : ¬a = '.' := (hr a rfl).2
      split
      · rename_i r2 heq
        injection heq with h1 h2
        exact absurd h1 hnd
      · rfl
  · have he : numToken ds fs ++ r = ds ++ ('.' :: (fs ++ r)) := by
      simp [numToken, hf, List.append_assoc]
    have htd : takeDigits (ds ++ ('.' :: (fs ++ r))) = (ds, '.' :: (fs ++ r)) := by
      rw [takeDigits_append ds _ hdsd, takeDigits_head ('.' :: (fs ++ r)) (by
        intro a ha
        obtain rfl : '.' = a := by simpa using ha
        decide)]
      simp
    have htd2 : takeDigits (fs ++ r) = (fs, r) := by
      rw [takeDigits_append fs r hfsd, hrd]
      simp
    rw [he, parseNumber]
    simp only [htd, if_neg hne]
    simp only [htd2, if_neg hf]
    rfl

/-- The modelled `float(...)` fails on the constructed number token followed by a
non-numeric, non-whitespace-only rest. -/
theorem pyFloatCore_token (ds fs r : List Char) (hne : ds ≠ [])
    (hds : ∀ ch ∈ ds, ch ∈ digitChars) (hfs : ∀ ch ∈ fs, ch ∈ digitChars)
    (hr : ∀ a, r.head? = some a → a.isDigit = false ∧ a ≠ '.')
    (hnw : ∃ a ∈ r, a.isWhitespace = false) :
    pyFloatCore (numToken ds fs ++ r) = none := by
  have hdsd : ∀ ch ∈ ds, ch.isDigit = true := fun ch hch => (digitChar_facts ch (hds ch hch)).2.1
  have hfsd : ∀ ch ∈ fs, ch.isDigit = true := fun ch hch => (digitChar_facts ch (hfs ch hch)).2.1
  have hrd : takeDigits r = ([], r) := takeDigits_head r (fun a ha => (hr a ha).1)
  obtain ⟨w, hwmem, hw⟩ := hnw
  have hallws : allWs r = false := allWs_false_of_mem r w hwmem hw
  by_cases hf : fs = []
  · subst hf
    have he : numToken ds [] ++ r = ds ++ r := by simp [numToken]
    have htd : takeDigits (ds ++ r) = (ds, r) := by
      rw [takeDigits_append ds r hdsd, hrd]
      simp
    rw [he, pyFloatCore]
    simp only [htd, if_neg hne]
    cases r with
    | nil => simp at hwmem
    | cons a t =>
      have hnd : ¬a = '.' := (hr a rfl).2
      split
      · rename_i r2 heq
        injection heq with h1 h2
        exact absurd h1 hnd
      · rw [if_neg (by simp [hallws])]
  · have he : numToken ds fs ++ r = ds ++ ('.' :: (fs ++ r)) := by
      simp [numToken, hf, List.append_assoc]
    have htd : takeDigits (ds ++ ('.' :: (fs ++ r))) = (ds, '.' :: (fs ++ r)) := by
      rw [takeDigits_append ds _ hdsd, takeDigits_head ('.' :: (fs ++ r)) (by
        intro a ha
        obtain rfl : '.' = a := by simpa using ha
        decide)]
      simp
    have htd2 : takeDigits (fs ++ r) = (fs, r) := by
      rw [takeDigits_append fs r hfsd, hrd]
      simp
    rw [he, pyFloatCore]
    simp only [htd, if_neg hne]
    simp only [htd2]
    rw [if_neg (by simp [hallws])]

/-- The rest following the number in a number-first token: its head is the
separating space or the side letter, never a digit, a dot or a sign. -/
theorem sepSide_head (c : Char) (sep : Bool) (hc : c = 'P' ∨ c = 'S') :
    ∀ a, ((if sep then [' '] else []) ++ [c]).head? = some a →
      a.isDigit = false ∧ a ≠ '.' ∧ a.isWhitespace = false ∨
      a.isDigit = false ∧ a ≠ '.' ∧ a = ' ' := by
  intro a ha
  cases sep with
  | true =>
    rw [if_pos rfl] at ha
    obtain rfl : ' ' = a := by simpa using ha
    exact Or.inr (by decide)
  | false =>
    simp only [Bool.false_eq_true, if_false, List.nil_append] at ha
    obtain rfl : c = a := by simpa using ha
    exact Or.inl ⟨(sideChar_facts c hc).2.1, (sideChar_facts c hc).2.2.2.1,
      (sideChar_facts c hc).2.2.1⟩

/-- The modelled `float(...)` fails on every C6 token. -/
theorem pyFloat_heelToken (ds fs : List Char) (c : Char) (sep ord : Bool)
    (hne : ds ≠ []) (hds : ∀ ch ∈ ds, ch ∈ digitChars)
    (hfs : ∀ ch ∈ fs, ch ∈ digitChars) (hc : c = 'P' ∨ c = 'S') :
    pyFloat? (heelToken ds fs c sep ord) = none := by
  have hsw : skipWs (heelToken ds fs c sep ord) = heelToken ds fs c sep ord :=
    dropWhileWs_id _ (heelToken_head_ws ds fs c sep ord hne hds hc)
  cases ord with
  | false =>
    rw [heelToken] at hsw ⊢
    simp only [Bool.false_eq_true, if_false] at hsw ⊢
    rw [pyFloat?, hsw]
    rcases hc with rfl | rfl
    · show pyFloatCore _ = none
      rw [pyFloatCore]
      rw [takeDigits_head _ (by
        intro a ha
        obtain rfl : 'P' = a := by simpa using ha
        rfl)]
      simp
    · show pyFloatCore _ = none
      rw [pyFloatCore]
      rw [takeDigits_head _ (by
        intro a ha
        obtain rfl : 'S' = a := by simpa using ha
        rfl)]
      simp
  | true =>
    have he : heelToken ds fs c sep true =
        numToken ds fs ++ ((if sep then [' '] else []) ++ [c]) := by
      rw [heelToken, if_pos rfl, List.append_assoc]
    have hcore : pyFloatCore (numToken ds fs ++ ((if sep then [' '] else []) ++ [c])) = none :=
      pyFloatCore_token ds fs _ hne hds hfs
        (fun a ha => ((sepSide_head c sep hc a ha).elim
          (fun h => ⟨h.1, h.2.1⟩) (fun h => ⟨h.1, h.2.1⟩)))
        ⟨c, by simp, (sideChar_facts c hc).2.2.1⟩
    rw [pyFloat?, hsw, he]
    obtain ⟨d0, ds', rfl⟩ : ∃ d0 ds', ds = d0 :: ds' := by
      cases ds with
      | nil => exact absurd rfl hne
      | cons d0 ds' => exact ⟨d0, ds', rfl⟩
    have hd0 := digitChar_facts d0 (hds d0 (List.mem_cons_self d0 ds'))
    have he2 : numToken (d0 :: ds') fs ++ ((if sep then [' '] else []) ++ [c]) =
        d0 :: ((ds' ++ (if fs = [] then [] else '.' :: fs)) ++
          ((if sep then [' '] else []) ++ [c])) := by
      simp [numToken, List.cons_append, List.append_assoc]
    rw [he2]
    split
    · rename_i r heq
      injection heq with h1 h2
      exact absurd h1 hd0.2.2.2.2.2.2.1
    · rename_i r heq
      injection heq with h1 h2
      exact absurd h1 hd0.2.2.2.2.2.2.2
    · rw [← he2, ← he.symm.trans he]
      rw [← he2] at *
      exact he2 ▸ hcore

/-- The number-side regex matches a number-first token and yields the
decimal value and the side letter. -/
theorem matchNumSide_token (ds fs : List Char) (c : Char) (sep : Bool)
    (hne : ds ≠ []) (hds : ∀ ch ∈ ds, ch ∈ digitChars)
    (hfs : ∀ ch ∈ fs, ch ∈ digitChars) (hc : c = 'P' ∨ c = 'S') :
    matchNumSide (heelToken ds fs c sep true) = some (decValue ds fs, c) := by
  have hsw : skipWs (heelToken ds fs c sep true) = heelToken ds fs c sep true :=
    dropWhileWs_id _ (heelToken_head_ws ds fs c sep true hne hds hc)
  have he : heelToken ds fs c sep true =
      numToken ds fs ++ ((if sep then [' '] else []) ++ [c]) := by
    rw [heelToken, if_pos rfl, List.append_assoc]
  have hpn : parseNumber (numToken ds fs ++ ((if sep then [' '] else []) ++ [c])) =
      some (decValue ds fs, (if sep then [' '] else []) ++ [c]) :=
    parseNumber_token ds fs _ hne hds hfs
      (fun a ha => ((sepSide_head c sep hc a ha).elim
        (fun h => ⟨h.1, h.2.1⟩) (fun h => ⟨h.1, h.2.1⟩)))
  have hsw2 : skipWs ((if sep then [' '] else []) ++ [c]) = [c] :=
    skipWs_sep sep [c] (by
      intro a ha
      obtain rfl : c = a := by simpa using ha
      exact (sideChar_facts c hc).2.2.1)
  rw [matchNumSide, hsw, he, hpn]
  simp only [hsw2]
  rw [if_pos ⟨hc, rfl⟩]

/-- The number-side regex fails on a side-first token. -/
theorem matchNumSide_token_sideFirst (ds fs : List Char) (c : Char) (sep : Bool)
    (hne : ds ≠ []) (hds : ∀ ch ∈ ds, ch ∈ digitChars) (hc : c = 'P' ∨ c = 'S') :
    matchNumSide (heelToken ds fs c sep false) = none := by
  have hsw : skipWs (heelToken ds fs c sep false) = heelToken ds fs c sep false :=
    dropWhileWs_id _ (heelToken_head_ws ds fs c sep false hne hds hc)
  have he : heelToken ds fs c sep false =
      c :: ((if sep then [' '] else []) ++ numToken ds fs) := by
    rw [heelToken]
    simp
  have hpn : parseNumber (heelToken ds fs c sep false) = none := by
    rw [parseNumber, takeDigits_head _ (by
      rw [he]
      intro a ha
      obtain rfl : c = a := by simpa using ha
      exact (sideChar_facts c hc).2.1)]
    simp
  rw [matchNumSide, hsw, hpn]

/-- The side-number regex matches a side-first token. -/
theorem matchSideNum_token (ds fs : List Char) (c : Char) (sep : Bool)
    (hne : ds ≠ []) (hds : ∀ ch ∈ ds, ch ∈ digitChars)
    (hfs : ∀ ch ∈ fs, ch ∈ digitChars) (hc : c = 'P' ∨ c = 'S') :
    matchSideNum (heelToken ds fs c sep false) = some (c, decValue ds fs) := by
  have hsw : skipWs (heelToken ds fs c sep false) = heelToken ds fs c sep false :=
    dropWhileWs_id _ (heelToken_head_ws ds fs c sep false hne hds hc)
  have he : heelToken ds fs c sep false =
      c :: ((if sep then [' '] else []) ++ numToken ds fs) := by
    rw [heelToken]
    simp
  obtain ⟨d0, ds', rfl⟩ : ∃ d0 ds', ds = d0 :: ds' := by
    cases ds with
    | nil => exact absurd rfl hne
    | cons d0 ds' => exact ⟨d0, ds', rfl⟩
  have hd0 := digitChar_facts d0 (hds d0 (List.mem_cons_self d0 ds'))
  have hsw2 : skipWs ((if sep then [' '] else []) ++ numToken (d0 :: ds') fs)
      = numToken (d0 :: ds') fs :=
    skipWs_sep sep _ (by
      intro a ha
      have : numToken (d0 :: ds') fs = d0 :: (ds' ++ (if fs = [] then [] else '.' :: fs)) := by
        simp [numToken, List.cons_append]
      rw [this] at ha
      obtain rfl : d0 = a := by simpa using ha
      exact hd0.2.2.1)
  have hpn : parseNumber (numToken (d0 :: ds') fs) = some (decValue (d0 :: ds') fs, []) := by
    have := parseNumber_token (d0 :: ds') fs [] hne hds hfs (by simp)
    simpa using this
  rw [matchSideNum, hsw, he]
  split
  · rename_i c2 rest heq
    injection heq with h1 h2
    subst h1
    subst h2
    rw [if_pos hc, hsw2, hpn]
    rfl
  · rename_i hvac
    exact absurd hvac (List.cons_ne_nil _ _)

/-- C6 counterexample: a decimal comma is not accepted — `"1,5P"` is
classified as a discrete fallback, not as `Continuous(P, 1.5)`; likewise
`"P1"`, although of the form `<P|S><number>`, is classified as the discrete
code, not as `Continuous(P, 1)`. -/
theorem parseHeel_comma_discrete_cex :
    parseHeel (some "1,5P") = (some "DISCRETE", none) ∧
    ((some "DISCRETE", none) : Option String × Option ℚ) ≠ (some "P", some (3/2)) ∧
    parseHeel (some "P1") = (some "DISCRETE", none) ∧
    ((some "DISCRETE", none) : Option String × Option ℚ) ≠ (some "P", some 1) := by
  refine ⟨?_, by decide, by decide, by decide⟩
  norm_num +decide [parseHeel, normHeel, pyStrip, pyUpper, dropPat3, dropPat1, codesL,
    pyFloat?, pyFloatCore, skipWs, takeDigits, allWs, matchNumSide, matchSideNum,
    parseNumber, digitsVal]

/-- C6 (amended): for every heel string of the form `<number><P|S>` or
`<P|S><number>` — optional separating space, the number written with a
decimal dot — that is not itself one of the discrete codes, the parser
returns the continuous classification `(side, value)` (and `(none, none)`
when the value is 0); an input written with a decimal comma is not accepted
and falls through to the discrete fallback. -/
theorem parseHeel_dot_pattern (ds fs : List Char) (c : Char) (sep ord : Bool)
    (hne : ds ≠ []) (hds : ∀ ch ∈ ds, ch ∈ digitChars)
    (hfs : ∀ ch ∈ fs, ch ∈ digitChars) (hc : c = 'P' ∨ c = 'S')
    (hnc : heelToken ds fs c sep ord ∉ codesL) :
    parseHeel (some (String.mk (heelToken ds fs c sep ord))) =
      (if decValue ds fs = 0 then (none, none)
       else (some (String.mk [c]), some (decValue ds fs))) ∧
    parseHeel (some "1,5P") = (some "DISCRETE", none) := by
  constructor
  · have hnonempty : heelToken ds fs c sep ord ≠ [] := by
      cases ord <;> simp [heelToken, numToken, hne]
    have hnorm : normHeel (String.mk (heelToken ds fs c sep ord))
        = heelToken ds fs c sep ord := normHeel_heelToken ds fs c sep ord hne hds hfs hc
    have hfl := pyFloat_heelToken ds fs c sep ord hne hds hfs hc
    have hdata : (String.mk (heelToken ds fs c sep ord)).data
        = heelToken ds fs c sep ord := rfl
    rw [parseHeel]
    rw [hdata, if_neg hnonempty, hnorm, if_neg hnc, hfl]
    cases ord with
    | true =>
      rw [matchNumSide_token ds fs c sep hne hds hfs hc]
    | false =>
      rw [matchNumSide_token_sideFirst ds fs c sep hne hds hc,
        matchSideNum_token ds fs c sep hne hds hfs hc]
  · norm_num +decide [parseHeel, normHeel, pyStrip, pyUpper, dropPat3, dropPat1, codesL,
      pyFloat?, pyFloatCore, skipWs, takeDigits, allWs, matchNumSide, matchSideNum,
      parseNumber, digitsVal]

theorem parseHeel_dot_pattern_app :
    parseHeel (some (String.mk (heelToken ['1'] ['5'] 'P' false true))) =
      (if decValue ['1'] ['5'] = 0 then (none, none)
       else (some (String.mk ['P']), some (decValue ['1'] ['5']))) ∧
    String.mk (heelToken ['1'] ['5'] 'P' false true) = "1.5P" ∧
    decValue ['1'] ['5'] = 3/2 := by
  have h1 : digitsVal ['1'] = 1 := by decide
  have h5 : digitsVal ['5'] = 5 := by decide
  refine ⟨(parseHeel_dot_pattern ['1'] ['5'] 'P' false true (by decide) (by decide)
    (by decide) (Or.inl rfl) (by decide)).1, by decide, ?_⟩
  norm_num [decValue, h1, h5]
